import Mathlib

/-!
Verification of `make_calendar.py` (School-calendar-generator).

The script is embedded shallowly:

* Python `date` objects are represented by their proleptic-Gregorian
  ordinals (`date.toordinal`), which are in bijection with dates; the
  conversion functions `ymd2ord` / `ord2ymd` are ported from CPython's
  `datetime` module and are used exactly where the script converts
  between the two views (`date.fromordinal(d.toordinal() + 1)` is
  ordinal successor, `strftime` needs year/month/day).
* Python `dict` records for events become `RawEvent`, a record of
  `Option` fields (a missing key is `none`).
* Fallible code (dict lookup, `int()` parsing, `time()` range checks)
  returns `Option`; functions that can raise return `Option` results.
* `hash(...)` is CPython's process-salted hash; it is taken as an
  explicit parameter `pyHash` of the ICS builder, one value per program
  run.
* Python `int(str)` is modelled for ASCII input: surrounding ASCII
  whitespace, an optional sign, decimal digits with optional single
  underscores between digits.  (CPython additionally accepts Unicode
  digits and spaces; no claim below depends on those.)
-/

namespace SchoolCal

/-! ## DAY_MAP (source lines 6-14): dict from two-letter codes to 0..6 -/

/-- `DAY_MAP[d]` as a fallible lookup: `none` models a `KeyError`. -/
def dayMap (d : String) : Option Nat :=
  if d = "MO" then some 0
  else if d = "TU" then some 1
  else if d = "WE" then some 2
  else if d = "TH" then some 3
  else if d = "FR" then some 4
  else if d = "SA" then some 5
  else if d = "SU" then some 6
  else none

/-- The fixed weekday iteration order used by `print_week_view` (source line 51),
which also lists the keys of `DAY_MAP`. -/
def WEEK_ORDER : List String := ["MO", "TU", "WE", "TH", "FR", "SA", "SU"]

/-! ## Python `str.split(":")` and `int()` (for `parse_hhmm`, source lines 17-19) -/

/-- Python `str.split(sep)` for a one-character separator. -/
def splitOnChar (sep : Char) : List Char → List (List Char)
  | [] => [[]]
  | c :: rest =>
    let r := splitOnChar sep rest
    if c = sep then [] :: r
    else
      match r with
      | h :: t => (c :: h) :: t
      | [] => [[c]]

/-- ASCII whitespace stripped by Python `int(str)`. -/
def isPySpace (c : Char) : Bool :=
  c = ' ' || c = '\t' || c = '\n' || c = '\r' || c = '\x0b' || c = '\x0c'

/-- Strip leading and trailing ASCII whitespace. -/
def stripWS (cs : List Char) : List Char :=
  ((cs.dropWhile isPySpace).reverse.dropWhile isPySpace).reverse

/-- After an initial digit, Python `int()` accepts further digits with
optional single underscores between digits.  Returns the digits read
(underscores removed), or `none` on a malformed tail. -/
def digitsAfter : List Char → Option (List Char)
  | [] => some []
  | c :: rest =>
    if c.isDigit then (digitsAfter rest).map (c :: ·)
    else if c = '_' then
      match rest with
      | c2 :: rest2 =>
        if c2.isDigit then (digitsAfter rest2).map (c2 :: ·) else none
      | [] => none
    else none

/-- Numeric value of a list of decimal digit characters. -/
def digitsVal (ds : List Char) : Nat :=
  ds.foldl (fun a c => a * 10 + (c.toNat - 48)) 0

/-- The unsigned digit part of a Python integer literal: at least one
digit, single underscores allowed between digits. -/
def pyIntDigits (cs : List Char) : Option Nat :=
  match cs with
  | c :: rest =>
    if c.isDigit then (digitsAfter rest).map (fun ds => digitsVal (c :: ds))
    else none
  | [] => none

/-- Python `int(str)` on ASCII input (`ValueError` becomes `none`). -/
def pyInt (cs0 : List Char) : Option Int :=
  match stripWS cs0 with
  | [] => none
  | c :: rest =>
    if c = '+' then (pyIntDigits rest).map Int.ofNat
    else if c = '-' then (pyIntDigits rest).map (fun n => -(n : Int))
    else (pyIntDigits (c :: rest)).map Int.ofNat

/-- `parse_hhmm` (source lines 17-19):
`hh, mm = value.split(":")` (exactly two parts, else `ValueError`), then
`time(int(hh), int(mm))` (each part a Python int, hour 0-23 and minute
0-59, else `ValueError`).  `none` models the raised `ValueError`. -/
def parse_hhmm (value : String) : Option (Nat × Nat) :=
  match splitOnChar ':' value.data with
  | [hh, mm] => do
    let h ← pyInt hh
    let m ← pyInt mm
    if 0 ≤ h ∧ h < 24 ∧ 0 ≤ m ∧ m < 60 then some (h.toNat, m.toNat) else none
  | _ => none

/-! ## Dates (CPython `datetime.date`): proleptic-Gregorian ordinals -/

/-- Gregorian leap year. -/
def isLeap (y : Nat) : Bool :=
  y % 4 = 0 && (y % 100 != 0 || y % 400 = 0)

/-- Days in month `m` (1-12) of year `y` (CPython `_days_in_month`). -/
def daysInMonth (y m : Nat) : Nat :=
  if m = 2 then (if isLeap y then 29 else 28)
  else [31, 31, 28, 31, 30, 31, 30, 31, 31, 30, 31, 30, 31].getD m 31

/-- Days before month `m` in a non-leap year (CPython `_DAYS_BEFORE_MONTH`). -/
def daysBeforeMonthTable (m : Nat) : Nat :=
  [0, 0, 31, 59, 90, 120, 151, 181, 212, 243, 273, 304, 334].getD m 0

/-- Days before month `m` of year `y` (CPython `_days_before_month`). -/
def daysBeforeMonth (y m : Nat) : Nat :=
  daysBeforeMonthTable m + (if 2 < m && isLeap y then 1 else 0)

/-- Days before January 1st of year `y` (CPython `_days_before_year`). -/
def daysBeforeYear (y : Nat) : Nat :=
  (y - 1) * 365 + (y - 1) / 4 - (y - 1) / 100 + (y - 1) / 400

/-- `date(y, m, d).toordinal()` (CPython `_ymd2ord`). -/
def ymd2ord (y m d : Nat) : Nat :=
  daysBeforeYear y + daysBeforeMonth y m + d

/-- `date.fromordinal(n)` as (year, month, day) (CPython `_ord2ymd`). -/
def ord2ymd (n : Nat) : Nat × Nat × Nat :=
  let n0 := n - 1
  let n400 := n0 / 146097
  let r400 := n0 % 146097
  let n100 := r400 / 36524
  let r100 := r400 % 36524
  let n4 := r100 / 1461
  let r4 := r100 % 1461
  let n1 := r4 / 365
  let nn := r4 % 365
  let year := n400 * 400 + 1 + n100 * 100 + n4 * 4 + n1
  if n1 = 4 || n100 = 4 then (year - 1, 12, 31)
  else
    let leap := n1 = 3 && (n4 != 24 || n100 = 3)
    let month := (nn + 50) >>> 5
    let preceding := daysBeforeMonthTable month + (if 2 < month && leap then 1 else 0)
    if nn < preceding then
      let month1 := month - 1
      let preceding1 :=
        preceding - (daysInMonth 1 month1 + (if month1 = 2 && leap then 1 else 0))
      (year, month1, nn - preceding1 + 1)
    else (year, month, nn - preceding + 1)

/-- `date.weekday()` of the date with ordinal `n`: Monday = 0 ... Sunday = 6
(ordinal 1, 0001-01-01, is a Monday). -/
def weekdayOfOrd (n : Nat) : Nat := (n + 6) % 7

/-! ## `first_matching_date` (source lines 40-47) -/

/-- `date.max.toordinal()`: the ordinal of 9999-12-31, the largest
ordinal `date.fromordinal` accepts (it raises `ValueError` above it;
its lower bound, `n ≥ 1`, is unreachable here because the step argument
`toordinal() + 1` is always positive). -/
def DATE_MAX_ORD : Nat := 3652059

/-- The `while d <= term_end` scan of `first_matching_date`: starting at
ordinal `d`, return the first ordinal `≤ e` whose weekday is in `w`
(inner `some d`), the inner `none` when the range is exhausted.  The
step is `d.fromordinal(d.toordinal() + 1)`, i.e. ordinal successor, and
`fromordinal` raises `ValueError` when the successor exceeds
`DATE_MAX_ORD` — the outer `none`. -/
def firstMatchingOrd (e : Nat) (w : List Nat) (d : Nat) : Option (Option Nat) :=
  if h : d ≤ e then
    if weekdayOfOrd d ∈ w then some (some d)
    else if d + 1 ≤ DATE_MAX_ORD then firstMatchingOrd e w (d + 1)
    else none
  else some none
termination_by e + 1 - d
decreasing_by omega

/-- `first_matching_date(term_start, term_end, days)` (source lines 40-47).
`wanted = {DAY_MAP[d] for d in days}` evaluates every lookup first; an
unknown code raises `KeyError`.  The outer `none` is a raised exception
(`KeyError` from the lookup, or `ValueError` from `date.fromordinal`
past `date.max` inside the scan); the inner `Option` is the function's
own `date | None` result.  Dates are passed and returned as ordinals. -/
def first_matching_date (term_start term_end : Nat) (days : List String) :
    Option (Option Nat) :=
  (days.mapM dayMap).bind fun w => firstMatchingOrd term_end w term_start

/-! ## `ics_escape` (source lines 22-31) -/

/-- Python `str.replace(t, r)` for a one-character target `t`: every
occurrence of `t` is replaced by `r`; the inserted text is not rescanned. -/
def replaceChar (t : Char) (r : List Char) : List Char → List Char
  | [] => []
  | c :: rest =>
    if c = t then r ++ replaceChar t r rest else c :: replaceChar t r rest

/-- Python `str.replace("\r\n", "\n")`: collapse each (non-overlapping,
left-to-right) CRLF pair to LF. -/
def replaceCRLF : List Char → List Char
  | [] => []
  | [c] => [c]
  | c1 :: c2 :: rest =>
    if c1 = '\r' ∧ c2 = '\n' then '\n' :: replaceCRLF rest
    else c1 :: replaceCRLF (c2 :: rest)

/-- The six replacement passes of `ics_escape`, in source order:
backslash doubling, CRLF to LF, CR to LF, LF to `\n`, comma, semicolon. -/
def escapeChars (s : List Char) : List Char :=
  replaceChar ';' ['\\', ';']
    (replaceChar ',' ['\\', ',']
      (replaceChar '\n' ['\\', 'n']
        (replaceChar '\r' ['\n']
          (replaceCRLF
            (replaceChar '\\' ['\\', '\\'] s)))))

/-- `ics_escape` (source lines 22-31).  (`s = s or ""` only matters for a
`None` argument, which cannot arise for our `String` inputs.) -/
def ics_escape (s : String) : String := ⟨escapeChars s.data⟩

/-- Newline normalization named by the spec: CRLF, then lone CR, to LF. -/
def normalizeNewlines (s : List Char) : List Char :=
  replaceChar '\r' ['\n'] (replaceCRLF s)

/-- The inverse of the documented escaping rules: `\\`, `\n`, `\,`, `\;`
decode to backslash, LF, comma, semicolon; anything else is copied. -/
def unescapeChars : List Char → List Char
  | [] => []
  | [c] => [c]
  | c1 :: c2 :: rest =>
    if c1 = '\\' then
      if c2 = '\\' ∨ c2 = 'n' ∨ c2 = ',' ∨ c2 = ';' then
        (if c2 = 'n' then '\n' else c2) :: unescapeChars rest
      else c1 :: unescapeChars (c2 :: rest)
    else c1 :: unescapeChars (c2 :: rest)

/-! ## Event records -/

/-- A raw event record (a Python dict): `none` models a missing key.
The `"end"` key is named `endf` (`end` is a Lean keyword). -/
structure RawEvent where
  title : Option String
  days : Option (List String)
  start : Option String
  endf : Option String
  location : Option String
  notes : Option String
deriving DecidableEq

/-! ## `print_week_view` (source lines 50-62) -/

/-- One printed event line: `f"  {e['start']}–{e['end']}  {e['title']}"`. -/
def renderItem (s e t : String) : String :=
  "  " ++ s ++ "–" ++ e ++ "  " ++ t

/-- The comprehension `[e for e in events if d in e["days"]]`; a missing
`"days"` key raises (outer `none`). -/
def selectDay (d : String) : List RawEvent → Option (List RawEvent)
  | [] => some []
  | e :: rest => do
    let ds ← e.days
    let tail ← selectDay d rest
    pure (if ds.contains d then e :: tail else tail)

/-- Pair each selected event with its sort key `e["start"]` (the key
function of `items.sort(key=lambda e: e["start"])`). -/
def keyedItems : List RawEvent → Option (List (String × RawEvent))
  | [] => some []
  | e :: rest => do
    let s ← e.start
    let tail ← keyedItems rest
    pure ((s, e) :: tail)

/-- Python string comparison: lexicographic on code points, a proper
prefix comparing less. -/
def charListLE : List Char → List Char → Bool
  | [], _ => true
  | _ :: _, [] => false
  | a :: as, b :: bs =>
    if a.toNat < b.toNat then true
    else if b.toNat < a.toNat then false
    else charListLE as bs

/-- Comparison used by the sort: Python compares the `start` strings
lexicographically by code point. -/
def startLE (a b : String × RawEvent) : Prop := charListLE a.1.data b.1.data = true

instance : DecidableRel startLE :=
  fun a b => inferInstanceAs (Decidable (charListLE a.1.data b.1.data = true))

/-- The lines printed under one day header: the selected events, sorted
stably by their `start` string, each rendered; `"  (none)"` if none.
`items.sort` is a stable sort by key, modelled by insertion sort. -/
def dayBlock (d : String) (events : List RawEvent) : Option (List String) := do
  let items ← selectDay d events
  let keyed ← keyedItems items
  let sorted := keyed.insertionSort startLE
  if sorted.isEmpty then pure ["  (none)"]
  else sorted.mapM fun p => do
    let e ← p.2.endf
    let t ← p.2.title
    pure (renderItem p.1 e t)

/-- `print_week_view` (source lines 50-62): the list of strings passed
to `print`, in order, paired with the final state of the `events` list
(no statement of the function assigns to or mutates `events`; `items`
is a fresh list built by the comprehension, and `items.sort()` sorts
that fresh list). -/
def print_week_view (events : List RawEvent) :
    Option (List String × List RawEvent) := do
  let blocks ← WEEK_ORDER.mapM fun d => do
    let b ← dayBlock d events
    pure (("\n" ++ d ++ ":") :: b)
  pure (("\nWEEKLY VIEW" :: [String.mk (List.replicate 40 '-')]) ++ blocks.flatten,
    events)

/-! ## Validation (source lines 119-127) -/

/-- The three kinds of fatal validation error, with exactly the data the
raised message carries.  `missingKeys i` and `invalidDay i d` come from
the two `ValueError(f"Event #{i} ...")` raises and carry the 1-indexed
event position; `badTime s` is the raw `ValueError` escaping from
`parse_hhmm(s)` (from `int()` or tuple unpacking), whose message shows
the offending string but not the event position. -/
inductive VErr where
  | missingKeys (i : Nat)
  | invalidDay (i : Nat) (d : String)
  | badTime (s : String)
deriving DecidableEq

/-- `"title" not in e or "days" not in e or "start" not in e or "end" not in e`. -/
def hasAllKeys (e : RawEvent) : Bool :=
  e.title.isSome && e.days.isSome && e.start.isSome && e.endf.isSome

/-- Validation of one event at 1-indexed position `i`, in source order:
the combined missing-key check, then each day code in list order, then
`parse_hhmm(e["start"])`, then `parse_hhmm(e["end"])`. -/
def checkEvent (i : Nat) (e : RawEvent) : Option VErr :=
  if ¬hasAllKeys e then some (.missingKeys i)
  else
    match (e.days.getD []).find? (fun d => (dayMap d).isNone) with
    | some d => some (.invalidDay i d)
    | none =>
      match parse_hhmm (e.start.getD "") with
      | none => some (.badTime (e.start.getD ""))
      | some _ =>
        match parse_hhmm (e.endf.getD "") with
        | none => some (.badTime (e.endf.getD ""))
        | some _ => none

/-- The validation loop `for i, e in enumerate(events, start=1)`:
first error wins. -/
def validateFrom : Nat → List RawEvent → Option VErr
  | _, [] => none
  | i, e :: rest =>
    match checkEvent i e with
    | some err => some err
    | none => validateFrom (i + 1) rest

/-- The whole validation pass of `main` (source lines 119-127): `none`
means every event passed. -/
def validateEvents (events : List RawEvent) : Option VErr :=
  validateFrom 1 events

/-! ## `build_ics` (source lines 65-108) -/

/-- Decimal digits of `n`, via a fuel parameter (structural recursion so
that concrete values reduce in the kernel); `natDec` supplies enough fuel. -/
def natDecAux : Nat → Nat → List Char
  | 0, n => [Char.ofNat (48 + n % 10)]
  | fuel + 1, n =>
    if n < 10 then [Char.ofNat (48 + n)]
    else natDecAux fuel (n / 10) ++ [Char.ofNat (48 + n % 10)]

/-- Python's decimal rendering of a non-negative integer. -/
def natDec (n : Nat) : List Char := natDecAux n n

/-- Zero-pad to two digits (`%m`, `%d`, `%H`, `%M`, `%S`). -/
def pad2 (n : Nat) : List Char := if n < 10 then '0' :: natDec n else natDec n

/-- Zero-pad to four digits (`%Y`). -/
def pad4 (n : Nat) : List Char :=
  List.replicate (4 - (natDec n).length) '0' ++ natDec n

/-- `datetime.combine(date-with-ordinal n, time(hh, mm, ss)).strftime("%Y%m%dT%H%M%S")`. -/
def fmtDT (n hh mm ss : Nat) : String :=
  match ord2ymd n with
  | (y, m, d) => ⟨pad4 y ++ pad2 m ++ pad2 d ++ 'T' :: (pad2 hh ++ pad2 mm ++ pad2 ss)⟩

/-- `str(date-with-ordinal n)`: ISO `YYYY-MM-DD`. -/
def isoDate (n : Nat) : String :=
  match ord2ymd n with
  | (y, m, d) => ⟨pad4 y ++ '-' :: pad2 m ++ '-' :: pad2 d⟩

/-- Python `sep.join(parts)`. -/
def pyJoin (sep : String) : List String → String
  | [] => ""
  | [x] => x
  | x :: rest => x ++ sep ++ pyJoin sep rest

/-- The tuple hashed for the UID (source line 91):
`(title, tuple(days), e['start'], e['end'], str(term_start), str(term_end))`. -/
structure UidFields where
  title : String
  days : List String
  start : String
  endf : String
  termStart : String
  termEnd : String
deriving DecidableEq

/-- `f"{abs(hash(tuple))}@school-calendar"` for a given per-run hash
function `pyHash`. -/
def uidFor (pyHash : UidFields → Int) (f : UidFields) : String :=
  ⟨natDec (pyHash f).natAbs⟩ ++ "@school-calendar"

/-- The nine lines of one VEVENT block (source lines 93-105). -/
def veventLines (pyHash : UidFields → Int) (termStart termEnd first : Nat)
    (untilS title : String) (days : List String)
    (st et : Nat × Nat) (startS endS location notes : String) : List String :=
  ["BEGIN:VEVENT",
   "UID:" ++ uidFor pyHash
     ⟨title, days, startS, endS, isoDate termStart, isoDate termEnd⟩,
   "SUMMARY:" ++ ics_escape title,
   "DTSTART:" ++ fmtDT first st.1 st.2 0,
   "DTEND:" ++ fmtDT first et.1 et.2 0,
   "RRULE:FREQ=WEEKLY;BYDAY=" ++ pyJoin "," days ++ ";UNTIL=" ++ untilS,
   "LOCATION:" ++ ics_escape location,
   "DESCRIPTION:" ++ ics_escape notes,
   "END:VEVENT"]

/-- One iteration of the `for e in events` loop of `build_ics` (source
lines 76-105): the lines this event contributes.  Field accesses, time
parsing and the `first_matching_date` call happen in source order,
before the `first is None` skip test; an event whose first occurrence
is absent contributes no lines (and raises no error). -/
def eventOne (pyHash : UidFields → Int) (termStart termEnd : Nat)
    (untilS : String) (e : RawEvent) : Option (List String) := do
  let title ← e.title
  let days ← e.days
  let startS ← e.start
  let st ← parse_hhmm startS
  let endS ← e.endf
  let et ← parse_hhmm endS
  let location := (e.location).getD ""
  let notes := (e.notes).getD ""
  let firstO ← first_matching_date termStart termEnd days
  match firstO with
  | none => pure []
  | some first =>
    pure (veventLines pyHash termStart termEnd first untilS title days
      st et startS endS location notes)

/-- The whole `for e in events` loop: the VEVENT lines contributed by
the events, in order. -/
def eventBlocks (pyHash : UidFields → Int) (termStart termEnd : Nat)
    (untilS : String) : List RawEvent → Option (List String)
  | [] => some []
  | e :: rest => do
    let blk ← eventOne pyHash termStart termEnd untilS e
    let tail ← eventBlocks pyHash termStart termEnd untilS rest
    pure (blk ++ tail)

/-- The fixed VCALENDAR header (source lines 66-72). -/
def headerLines (term : String) : List String :=
  ["BEGIN:VCALENDAR", "VERSION:2.0", "PRODID:-//School Calendar Generator//EN",
   "CALSCALE:GREGORIAN", "X-WR-CALNAME:" ++ ics_escape term]

/-- The complete `lines` list of `build_ics`, header to footer. -/
def buildLines (pyHash : UidFields → Int) (term : String)
    (termStart termEnd : Nat) (events : List RawEvent) : Option (List String) := do
  let untilS := fmtDT termEnd 23 59 59
  let blocks ← eventBlocks pyHash termStart termEnd untilS events
  pure (headerLines term ++ blocks ++ ["END:VCALENDAR"])

/-- `build_ics` (source lines 65-108): `"\r\n".join(lines) + "\r\n"`. -/
def build_ics (pyHash : UidFields → Int) (term : String)
    (termStart termEnd : Nat) (events : List RawEvent) : Option String :=
  (buildLines pyHash term termStart termEnd events).map fun lines =>
    pyJoin "\r\n" lines ++ "\r\n"

/-! ## Lemmas about `ics_escape` -/

/-- The combined per-character effect of the escaping passes on a
CRLF-collapsed string (backslash doubled; CR or LF to `\n`; comma and
semicolon escaped; everything else kept). -/
def escChar (c : Char) : List Char :=
  if c = '\\' then ['\\', '\\']
  else if c = '\r' ∨ c = '\n' then ['\\', 'n']
  else if c = ',' then ['\\', ',']
  else if c = ';' then ['\\', ';']
  else [c]

lemma replaceChar_append (t : Char) (r : List Char) (xs ys : List Char) :
    replaceChar t r (xs ++ ys) = replaceChar t r xs ++ replaceChar t r ys := by
  induction xs with
  | nil => simp [replaceChar]
  | cons c rest ih =>
    simp only [List.cons_append, replaceChar, ih]
    split <;> simp [ih]

lemma replaceChar_cons (t : Char) (r : List Char) (c : Char) (l : List Char) :
    replaceChar t r (c :: l) = (if c = t then r else [c]) ++ replaceChar t r l := by
  simp only [replaceChar]
  split <;> simp

lemma replaceCRLF_cons_of_ne (c : Char) (hc : c ≠ '\r') (l : List Char) :
    replaceCRLF (c :: l) = c :: replaceCRLF l := by
  cases l with
  | nil => rfl
  | cons c2 rest => simp [replaceCRLF, hc]

lemma replaceCRLF_cr_cons (X : List Char) (h : X.head? ≠ some '\n') :
    replaceCRLF ('\r' :: X) = '\r' :: replaceCRLF X := by
  cases X with
  | nil => rfl
  | cons c2 rest =>
    simp only [List.head?_cons] at h
    have hc2 : c2 ≠ '\n' := fun hh => h (by rw [hh])
    simp [replaceCRLF, hc2]

/-- Backslash doubling commutes with CRLF collapsing (their alphabets
are disjoint). -/
lemma crlf_bs_comm (s : List Char) :
    replaceCRLF (replaceChar '\\' ['\\', '\\'] s) =
      replaceChar '\\' ['\\', '\\'] (replaceCRLF s) := by
  induction s using replaceCRLF.induct with
  | case1 => rfl
  | case2 c =>
    by_cases hc : c = '\\' <;>
      simp [replaceChar, replaceCRLF, hc]
  | case3 c1 c2 rest h ih =>
    obtain ⟨h1, h2⟩ := h
    subst h1; subst h2
    rw [show replaceChar '\\' ['\\', '\\'] ('\r' :: '\n' :: rest) =
        '\r' :: '\n' :: replaceChar '\\' ['\\', '\\'] rest from by
      simp [replaceChar_cons]]
    rw [show ∀ z : List Char, replaceCRLF ('\r' :: '\n' :: z) = '\n' :: replaceCRLF z from
      fun z => by simp [replaceCRLF]]
    rw [show ∀ z : List Char, replaceCRLF ('\r' :: '\n' :: z) = '\n' :: replaceCRLF z from
      fun z => by simp [replaceCRLF]]
    rw [ih, replaceChar_cons]
    simp
  | case4 c1 c2 rest h ih =>
    rw [show replaceCRLF (c1 :: c2 :: rest) = c1 :: replaceCRLF (c2 :: rest) from by
        simp [replaceCRLF, h]]
    by_cases hc1 : c1 = '\\'
    · subst hc1
      rw [show replaceChar '\\' ['\\', '\\'] ('\\' :: c2 :: rest) =
          '\\' :: '\\' :: replaceChar '\\' ['\\', '\\'] (c2 :: rest) from by
        simp [replaceChar_cons]]
      rw [show replaceChar '\\' ['\\', '\\'] ('\\' :: replaceCRLF (c2 :: rest)) =
          '\\' :: '\\' :: replaceChar '\\' ['\\', '\\'] (replaceCRLF (c2 :: rest)) from by
        simp [replaceChar_cons]]
      rw [replaceCRLF_cons_of_ne '\\' (by decide), replaceCRLF_cons_of_ne '\\' (by decide), ih]
    · rw [show replaceChar '\\' ['\\', '\\'] (c1 :: c2 :: rest) =
          c1 :: replaceChar '\\' ['\\', '\\'] (c2 :: rest) from by
        simp [replaceChar_cons, hc1]]
      rw [show replaceChar '\\' ['\\', '\\'] (c1 :: replaceCRLF (c2 :: rest)) =
          c1 :: replaceChar '\\' ['\\', '\\'] (replaceCRLF (c2 :: rest)) from by
        simp [replaceChar_cons, hc1]]
      by_cases hc1r : c1 = '\r'
      · subst hc1r
        have hc2 : c2 ≠ '\n' := fun hh => h ⟨rfl, hh⟩
        rw [replaceCRLF_cr_cons (replaceChar '\\' ['\\', '\\'] (c2 :: rest)) (by
          rw [replaceChar_cons]
          by_cases hc2b : c2 = '\\' <;> simp [hc2b, hc2]), ih]
      · rw [replaceCRLF_cons_of_ne c1 hc1r, ih]

/-- The last four passes of `escapeChars` (CR, LF, comma, semicolon). -/
def esc4 (z : List Char) : List Char :=
  replaceChar ';' ['\\', ';']
    (replaceChar ',' ['\\', ',']
      (replaceChar '\n' ['\\', 'n']
        (replaceChar '\r' ['\n'] z)))

lemma esc4_append (a b : List Char) : esc4 (a ++ b) = esc4 a ++ esc4 b := by
  simp [esc4, replaceChar_append]

lemma esc4_bs (z : List Char) :
    esc4 (replaceChar '\\' ['\\', '\\'] z) = z.flatMap escChar := by
  induction z with
  | nil => rfl
  | cons c rest ih =>
    rw [replaceChar_cons, esc4_append, List.flatMap_cons, ← ih]
    congr 1
    by_cases h1 : c = '\\'
    · subst h1; rfl
    · rw [if_neg h1]
      by_cases h2 : c = '\r'
      · subst h2; rfl
      · by_cases h3 : c = '\n'
        · subst h3; rfl
        · by_cases h4 : c = ','
          · subst h4; rfl
          · by_cases h5 : c = ';'
            · subst h5; rfl
            · simp [esc4, replaceChar, escChar, h1, h2, h3, h4, h5]

/-- `ics_escape` acts like `escChar` applied pointwise after collapsing
CRLF pairs. -/
lemma escapeChars_eq_flatMap (s : List Char) :
    escapeChars s = (replaceCRLF s).flatMap escChar := by
  show esc4 (replaceCRLF (replaceChar '\\' ['\\', '\\'] s)) = _
  rw [crlf_bs_comm, esc4_bs]

lemma unescape_cons_of_ne (c : Char) (h : c ≠ '\\') (l : List Char) :
    unescapeChars (c :: l) = c :: unescapeChars l := by
  cases l with
  | nil => rfl
  | cons c2 rest => simp [unescapeChars, h]

lemma unescape_escChar (c : Char) (l : List Char) :
    unescapeChars (escChar c ++ l) =
      (if c = '\r' then '\n' else c) :: unescapeChars l := by
  by_cases h1 : c = '\\'
  · subst h1; simp [escChar, unescapeChars]
  · by_cases h2 : c = '\r'
    · subst h2; simp [escChar, unescapeChars]
    · by_cases h3 : c = '\n'
      · subst h3; simp [escChar, unescapeChars]
      · by_cases h4 : c = ','
        · subst h4; simp [escChar, unescapeChars]
        · by_cases h5 : c = ';'
          · subst h5; simp [escChar, unescapeChars]
          · rw [escChar, if_neg h1, if_neg (by simp [h2, h3]), if_neg h4, if_neg h5,
              List.singleton_append, unescape_cons_of_ne c h1, if_neg h2]

lemma unescape_flatMap (z : List Char) :
    unescapeChars (z.flatMap escChar) = z.map fun c => if c = '\r' then '\n' else c := by
  induction z with
  | nil => rfl
  | cons c rest ih => rw [List.flatMap_cons, unescape_escChar, ih, List.map_cons]

lemma replaceChar_cr_map (z : List Char) :
    replaceChar '\r' ['\n'] z = z.map fun c => if c = '\r' then '\n' else c := by
  induction z with
  | nil => rfl
  | cons c rest ih =>
    rw [replaceChar_cons, ih, List.map_cons]
    split <;> simp

/-- Un-escaping an escaped string yields the newline-normalized input. -/
lemma unescape_escape (s : List Char) :
    unescapeChars (escapeChars s) = normalizeNewlines s := by
  rw [escapeChars_eq_flatMap, unescape_flatMap, normalizeNewlines, replaceChar_cr_map]

lemma replaceCRLF_of_no_cr (s : List Char) (h : '\r' ∉ s) : replaceCRLF s = s := by
  induction s using replaceCRLF.induct with
  | case1 => rfl
  | case2 c => rfl
  | case3 c1 c2 rest hc ih =>
    exact absurd (by simp [hc.1]) h
  | case4 c1 c2 rest hc ih =>
    rw [show replaceCRLF (c1 :: c2 :: rest) = c1 :: replaceCRLF (c2 :: rest) by
        simp [replaceCRLF, hc]]
    rw [ih fun hm => h (List.mem_cons_of_mem c1 hm)]

lemma normalize_of_no_cr (s : List Char) (h : '\r' ∉ s) : normalizeNewlines s = s := by
  rw [normalizeNewlines, replaceCRLF_of_no_cr s h, replaceChar_cr_map]
  have he : ∀ c ∈ s, (if c = '\r' then '\n' else c) = id c :=
    fun c hc => if_neg fun hh : c = '\r' => h (hh ▸ hc)
  rw [List.map_congr_left he, List.map_id]

lemma escChar_nr (c : Char) : escChar (if c = '\r' then '\n' else c) = escChar c := by
  by_cases h : c = '\r'
  · subst h; rfl
  · rw [if_neg h]

/-- The escaped output only depends on the newline-normalized input. -/
lemma escape_eq_flatMap_normalize (s : List Char) :
    escapeChars s = (normalizeNewlines s).flatMap escChar := by
  rw [escapeChars_eq_flatMap, normalizeNewlines, replaceChar_cr_map, List.flatMap_map]
  exact (List.flatMap_congr fun c _ => (escChar_nr c).symm)

lemma mem_escChar_ne (a c : Char) (ha : c ∈ escChar a) : c ≠ '\r' ∧ c ≠ '\n' := by
  by_cases h1 : a = '\\'
  · subst h1; simp [escChar] at ha; subst ha; decide
  · by_cases h2 : a = '\r'
    · subst h2; simp [escChar] at ha; rcases ha with rfl | rfl <;> decide
    · by_cases h3 : a = '\n'
      · subst h3; simp [escChar] at ha; rcases ha with rfl | rfl <;> decide
      · by_cases h4 : a = ','
        · subst h4; simp [escChar] at ha; rcases ha with rfl | rfl <;> decide
        · by_cases h5 : a = ';'
          · subst h5; simp [escChar] at ha; rcases ha with rfl | rfl <;> decide
          · rw [escChar, if_neg h1, if_neg (by simp [h2, h3]), if_neg h4, if_neg h5] at ha
            simp at ha
            subst ha
            exact ⟨h2, h3⟩

/-- Escaped text never contains a raw CR or LF. -/
lemma mem_escapeChars_ne_crlf (c : Char) (s : List Char) (h : c ∈ escapeChars s) :
    c ≠ '\r' ∧ c ≠ '\n' := by
  rw [escapeChars_eq_flatMap] at h
  obtain ⟨a, _, ha⟩ := List.mem_flatMap.mp h
  exact mem_escChar_ne a c ha

/-! ## Lemmas about `first_matching_date` -/

lemma fmo_safe_none_iff (e : Nat) (w : List Nat) (he : e < DATE_MAX_ORD) (d : Nat) :
    firstMatchingOrd e w d = some none ↔
      ∀ y, d ≤ y → y ≤ e → weekdayOfOrd y ∉ w := by
  induction d using firstMatchingOrd.induct e w with
  | case1 d hle hmem =>
    rw [firstMatchingOrd, dif_pos hle, if_pos hmem]
    constructor
    · intro hh; exact absurd (Option.some.inj hh) (by simp)
    · intro hall; exact absurd hmem (hall d le_rfl hle)
  | case2 d hle hmem hguard ih =>
    rw [firstMatchingOrd, dif_pos hle, if_neg hmem, if_pos hguard, ih]
    constructor
    · intro hall y hdy hye
      rcases Nat.eq_or_lt_of_le hdy with rfl | hlt
      · exact hmem
      · exact hall y hlt hye
    · intro hall y hdy hye
      exact hall y (Nat.le_of_succ_le hdy) hye
  | case3 d hle hmem hguard =>
    exact absurd he (by omega)
  | case4 d hgt =>
    rw [firstMatchingOrd, dif_neg hgt]
    constructor
    · intro _ y hdy hye
      exact absurd (le_trans hdy hye) hgt
    · intro _
      rfl

lemma fmo_isSome_of_lt (e : Nat) (w : List Nat) (he : e < DATE_MAX_ORD) (d : Nat) :
    ∃ r, firstMatchingOrd e w d = some r := by
  induction d using firstMatchingOrd.induct e w with
  | case1 d hle hmem =>
    exact ⟨some d, by rw [firstMatchingOrd, dif_pos hle, if_pos hmem]⟩
  | case2 d hle hmem hguard ih =>
    obtain ⟨r, hr⟩ := ih
    exact ⟨r, by rw [firstMatchingOrd, dif_pos hle, if_neg hmem, if_pos hguard, hr]⟩
  | case3 d hle hmem hguard =>
    exact absurd he (by omega)
  | case4 d hgt =>
    exact ⟨none, by rw [firstMatchingOrd, dif_neg hgt]⟩

lemma mapM_dayMap_of_valid (days : List String)
    (h : ∀ d ∈ days, (dayMap d).isSome) :
    days.mapM dayMap = some (days.filterMap dayMap) := by
  induction days with
  | nil => rfl
  | cons d rest ih =>
    obtain ⟨v, hv⟩ := Option.isSome_iff_exists.mp (h d (List.mem_cons_self d rest))
    rw [List.mapM_cons, hv, ih fun x hx => h x (List.mem_cons_of_mem d hx)]
    simp [List.filterMap_cons, hv]

/-- The boundary failure shared by the counterexamples below: scanning
the one-day window 9999-12-31..9999-12-31 for a Monday finds no match
(9999-12-31 is a Friday) and the step
`date.fromordinal(d.toordinal() + 1)` raises `ValueError`. -/
lemma fmd_max_mo_error :
    first_matching_date (ymd2ord 9999 12 31) (ymd2ord 9999 12 31) ["MO"] = none := by
  rw [first_matching_date, show List.mapM dayMap ["MO"] = some [0] from by decide]
  show firstMatchingOrd (ymd2ord 9999 12 31) [0] (ymd2ord 9999 12 31) = none
  rw [show ymd2ord 9999 12 31 = 3652059 from by decide]
  unfold firstMatchingOrd
  norm_num [weekdayOfOrd, DATE_MAX_ORD]

lemma fmo_nil (e d : Nat) (he : e < DATE_MAX_ORD) :
    firstMatchingOrd e [] d = some none :=
  (fmo_safe_none_iff e [] he d).mpr fun _ _ _ => by simp

lemma eventBlocks_append (pyHash : UidFields → Int) (ts te : Nat) (u : String)
    (l1 l2 : List RawEvent) :
    eventBlocks pyHash ts te u (l1 ++ l2) =
      (eventBlocks pyHash ts te u l1).bind fun b1 =>
        (eventBlocks pyHash ts te u l2).map fun b2 => b1 ++ b2 := by
  induction l1 with
  | nil =>
    rw [List.nil_append, show eventBlocks pyHash ts te u [] = some [] from rfl]
    cases eventBlocks pyHash ts te u l2 <;> rfl
  | cons e rest ih =>
    show eventBlocks pyHash ts te u (e :: (rest ++ l2)) = _
    rw [eventBlocks, eventBlocks, ih]
    cases eventOne pyHash ts te u e with
    | none => rfl
    | some blk =>
      cases eventBlocks pyHash ts te u rest with
      | none => rfl
      | some b1 =>
        cases eventBlocks pyHash ts te u l2 with
        | none => rfl
        | some b2 => simp

/-- **C9 counterexample** (boundary): for the empty day list with the
window ending on `date.max` (9999-12-31, ordinal `DATE_MAX_ORD`), the
program does not return `None`: the scan reaches `date.max` without a
match and `date.fromordinal(3652060)` raises `ValueError` (the outer
`none`), so "never errors" and "returns None for every range" both
fail. -/
theorem C9_boundary_counterexample :
    (∀ d ∈ ([] : List String), (dayMap d).isSome) ∧
    first_matching_date (ymd2ord 9999 12 31) (ymd2ord 9999 12 31) [] = none ∧
    (none : Option (Option Nat)) ≠ some none := by
  refine ⟨by decide, ?_, by decide⟩
  rw [first_matching_date]
  show firstMatchingOrd (ymd2ord 9999 12 31) [] (ymd2ord 9999 12 31) = none
  rw [show ymd2ord 9999 12 31 = 3652059 from by decide]
  unfold firstMatchingOrd
  norm_num [weekdayOfOrd, DATE_MAX_ORD]

/-- **C9** (implicit, amended): for every term window and every day-code
list of valid codes — including the empty list — the `DAY_MAP` lookup
phase of `first_matching_date` never fails, and, provided the window
ends strictly before `date.max` (9999-12-31), the empty list yields the
inner `None` for every range and an event with an empty day list passes
validation yet contributes nothing to the ICS line list: it is silently
dropped.  (When the window ends on `date.max`, a no-match scan — always
the case for the empty list when `term_start ≤ term_end` — instead
raises `ValueError` from `date.fromordinal`; see the counterexample.) -/
theorem C9_empty_days_amended :
    ∀ (term_start term_end : Nat) (days : List String),
      (∀ d ∈ days, (dayMap d).isSome) →
      (∃ w, days.mapM dayMap = some w ∧
        first_matching_date term_start term_end days =
          firstMatchingOrd term_end w term_start) ∧
      (term_end < DATE_MAX_ORD → days = [] →
        first_matching_date term_start term_end days = some none) ∧
      (∀ (pyHash : UidFields → Int) (term : String) (pre post : List RawEvent)
          (ev : RawEvent),
        term_end < DATE_MAX_ORD →
        ev.days = some [] → ev.title.isSome →
        (∃ s hm, ev.start = some s ∧ parse_hhmm s = some hm) →
        (∃ s hm, ev.endf = some s ∧ parse_hhmm s = some hm) →
        (∀ i, checkEvent i ev = none) ∧
        buildLines pyHash term term_start term_end (pre ++ ev :: post) =
          buildLines pyHash term term_start term_end (pre ++ post)) := by
  intro ts te days hvalid
  refine ⟨⟨days.filterMap dayMap, mapM_dayMap_of_valid days hvalid, by
    rw [first_matching_date, mapM_dayMap_of_valid days hvalid]; rfl⟩, ?_, ?_⟩
  · rintro hte rfl
    rw [show first_matching_date ts te [] = firstMatchingOrd te [] ts from rfl,
      fmo_nil te ts hte]
  · intro pyHash term pre post ev hte hdays htitle hstart hend
    obtain ⟨ss, shm, hss, hsp⟩ := hstart
    obtain ⟨es, ehm, hes, hep⟩ := hend
    obtain ⟨ti, hti⟩ := Option.isSome_iff_exists.mp htitle
    have hfm : first_matching_date ts te [] = some none := by
      rw [show first_matching_date ts te [] = firstMatchingOrd te [] ts from rfl,
        fmo_nil te ts hte]
    have hone : ∀ u, eventOne pyHash ts te u ev = some [] := by
      intro u
      rw [eventOne, hti, hdays, hss, hes]
      simp [hsp, hep, hfm]
    constructor
    · intro i
      rw [checkEvent]
      rw [if_neg (by simp [hasAllKeys, hti, hdays, hss, hes])]
      rw [hdays, hss, hes]
      simp [hsp, hep]
    · have hcons : ∀ u, eventBlocks pyHash ts te u (ev :: post) =
          eventBlocks pyHash ts te u post := by
        intro u
        rw [eventBlocks, hone]
        cases eventBlocks pyHash ts te u post <;> rfl
      simp only [buildLines, eventBlocks_append, hcons]

/-- Witness for C9: empty day list over the one-day window 5..5 (far
below the `date.max` boundary); the dropped event. -/
theorem C9_empty_days_amended_witness :
    first_matching_date 5 5 [] = some none ∧
      buildLines (fun _ => 0) "T" 5 5
          [RawEvent.mk (some "X") (some []) (some "9:00") (some "10:00") none none] =
        buildLines (fun _ => 0) "T" 5 5 [] := by
  have h := C9_empty_days_amended 5 5 [] (by decide)
  refine ⟨h.2.1 (by decide) rfl, ?_⟩
  have h2 := (h.2.2 (fun _ => 0) "T" [] []
    (RawEvent.mk (some "X") (some []) (some "9:00") (some "10:00") none none)
    (by decide) rfl (by decide) ⟨"9:00", (9, 0), rfl, by decide⟩
    ⟨"10:00", (10, 0), rfl, by decide⟩).2
  simpa using h2

/-- **C3 counterexample**: an input containing a backslash, a comma, a
semicolon and an embedded CRLF newline is *not* recovered by
un-escaping the escaped form: the CRLF comes back as a lone LF. -/
theorem C3_roundtrip_counterexample :
    ('\\' ∈ ['\\', ',', ';', 'a', '\r', '\n', 'b'] ∧
      ',' ∈ ['\\', ',', ';', 'a', '\r', '\n', 'b'] ∧
      ';' ∈ ['\\', ',', ';', 'a', '\r', '\n', 'b'] ∧
      '\r' ∈ ['\\', ',', ';', 'a', '\r', '\n', 'b'] ∧
      '\n' ∈ ['\\', ',', ';', 'a', '\r', '\n', 'b']) ∧
    unescapeChars (escapeChars ['\\', ',', ';', 'a', '\r', '\n', 'b']) ≠
      ['\\', ',', ';', 'a', '\r', '\n', 'b'] := by
  constructor
  · exact ⟨by decide, by decide, by decide, by decide, by decide⟩
  · decide

/-- **C3** (amended): `ics_escape` applies backslash escaping first,
then newline normalization, then the LF, comma and semicolon escapes
(definitionally, `escapeChars`); un-escaping the escaped form yields
the newline-normalized input, hence recovers the original exactly for
every input without CR; and the escaped output depends only on the
newline-normalized input, so the CRLF, CR and LF forms of the same text
escape identically. -/
theorem C3_escape_correct :
    ∀ s : List Char,
      unescapeChars (escapeChars s) = normalizeNewlines s ∧
      ('\r' ∉ s → unescapeChars (escapeChars s) = s) ∧
      ∀ t : List Char, normalizeNewlines s = normalizeNewlines t →
        escapeChars s = escapeChars t := by
  intro s
  refine ⟨unescape_escape s, ?_, ?_⟩
  · intro h
    rw [unescape_escape s, normalize_of_no_cr s h]
  · intro t ht
    rw [escape_eq_flatMap_normalize s, escape_eq_flatMap_normalize t, ht]

/-- Witness for C3 at the CR-free input `"a\nb"`. -/
theorem C3_escape_correct_witness :
    ('\r' ∉ ['a', '\n', 'b'] ∧
      unescapeChars (escapeChars ['a', '\n', 'b']) = ['a', '\n', 'b']) ∧
    (normalizeNewlines ['a', '\r', 'b'] = normalizeNewlines ['a', '\n', 'b'] ∧
      escapeChars ['a', '\r', 'b'] = escapeChars ['a', '\n', 'b']) :=
  ⟨⟨by decide, (C3_escape_correct ['a', '\n', 'b']).2.1 (by decide)⟩,
    ⟨by decide, (C3_escape_correct ['a', '\r', 'b']).2.2 ['a', '\n', 'b'] (by decide)⟩⟩

/-! ## The `H:M` / `HH:MM` grammar of the spec (claim C6) -/

/-- One clock field of the documented grammar: one or two decimal digits. -/
def hhmmShape (cs : List Char) : Bool :=
  (cs.length = 1 || cs.length = 2) && cs.all (·.isDigit)

/-- The documented time grammar: `H:M` or `HH:MM` (zero-padded or not),
hour 0-23, minute 0-59. -/
def isHHMMGrammar (s : String) : Bool :=
  match splitOnChar ':' s.data with
  | [hh, mm] =>
    hhmmShape hh && hhmmShape mm &&
      decide (digitsVal hh < 24) && decide (digitsVal mm < 60)
  | _ => false

lemma digit_not_space (c : Char) (h : c.isDigit = true) : isPySpace c = false := by
  by_cases h1 : c = ' '
  · subst h1; exact absurd h (by decide)
  · by_cases h2 : c = '\t'
    · subst h2; exact absurd h (by decide)
    · by_cases h3 : c = '\n'
      · subst h3; exact absurd h (by decide)
      · by_cases h4 : c = '\r'
        · subst h4; exact absurd h (by decide)
        · by_cases h5 : c = '\x0b'
          · subst h5; exact absurd h (by decide)
          · by_cases h6 : c = '\x0c'
            · subst h6; exact absurd h (by decide)
            · simp [isPySpace, h1, h2, h3, h4, h5, h6]

lemma stripWS_of_digits (cs : List Char) (h : ∀ c ∈ cs, c.isDigit = true) :
    stripWS cs = cs := by
  have hds : ∀ l : List Char, (∀ c ∈ l, c.isDigit = true) →
      l.dropWhile isPySpace = l := by
    intro l hl
    cases l with
    | nil => rfl
    | cons a t =>
      rw [List.dropWhile_cons]
      simp [digit_not_space a (hl a (List.mem_cons_self a t))]
  rw [stripWS, hds cs h,
    hds cs.reverse fun c hc => h c (List.mem_reverse.mp hc), List.reverse_reverse]

lemma digitsAfter_cons (c : Char) (rest : List Char) :
    digitsAfter (c :: rest) =
      if c.isDigit then (digitsAfter rest).map (c :: ·)
      else if c = '_' then
        match rest with
        | c2 :: rest2 =>
          if c2.isDigit then (digitsAfter rest2).map (c2 :: ·) else none
        | [] => none
      else none := by
  cases rest <;> rfl

lemma digitsAfter_digits (cs : List Char) (h : ∀ c ∈ cs, c.isDigit = true) :
    digitsAfter cs = some cs := by
  induction cs with
  | nil => rfl
  | cons c rest ih =>
    rw [digitsAfter_cons, if_pos (h c (List.mem_cons_self c rest)),
      ih fun x hx => h x (List.mem_cons_of_mem c hx)]
    rfl

lemma digit_ne_plus (c : Char) (h : c.isDigit = true) : c ≠ '+' :=
  fun hh => absurd h (by rw [hh]; decide)

lemma digit_ne_minus (c : Char) (h : c.isDigit = true) : c ≠ '-' :=
  fun hh => absurd h (by rw [hh]; decide)

lemma pyInt_of_digits (cs : List Char) (h : ∀ c ∈ cs, c.isDigit = true)
    (hne : cs ≠ []) : pyInt cs = some (Int.ofNat (digitsVal cs)) := by
  rw [pyInt]
  rw [stripWS_of_digits cs h]
  cases cs with
  | nil => exact absurd rfl hne
  | cons c rest =>
    have hc := h c (List.mem_cons_self c rest)
    show (if c = '+' then _ else if c = '-' then _ else
      (pyIntDigits (c :: rest)).map Int.ofNat) = _
    rw [if_neg (digit_ne_plus c hc), if_neg (digit_ne_minus c hc)]
    rw [show pyIntDigits (c :: rest) =
        (digitsAfter rest).map (fun ds => digitsVal (c :: ds)) from by
      rw [pyIntDigits, if_pos hc]]
    rw [digitsAfter_digits rest fun x hx => h x (List.mem_cons_of_mem c hx)]
    rfl

/-- **C6 counterexample**: `parse_hhmm` succeeds on `"007:05"` and on
`"+9:05"`, neither of which is of the form `H:M` / `HH:MM`, so parsing
does not succeed *exactly* on that grammar. -/
theorem C6_grammar_counterexample :
    parse_hhmm "007:05" = some (7, 5) ∧ isHHMMGrammar "007:05" = false ∧
      parse_hhmm "+9:05" = some (9, 5) ∧ isHHMMGrammar "+9:05" = false := by
  refine ⟨by decide, by decide, by decide, by decide⟩

/-- **C6** (amended): every string of the documented `H:M` / `HH:MM`
grammar with hour 0-23 and minute 0-59 parses to that hour and minute,
and the listed malformed examples (hour 24, minute 60, missing colon,
trailing seconds field) are rejected — but the converse direction of
the claim fails: `parse_hhmm` also accepts strings outside the grammar
(see the counterexample), namely whenever both colon-fields parse as
Python integers in range. -/
theorem C6_parse_hhmm_grammar :
    (∀ (s : String) (hh mm : List Char),
      splitOnChar ':' s.data = [hh, mm] →
      hhmmShape hh = true → hhmmShape mm = true →
      digitsVal hh < 24 → digitsVal mm < 60 →
      parse_hhmm s = some (digitsVal hh, digitsVal mm)) ∧
    parse_hhmm "24:00" = none ∧ parse_hhmm "23:60" = none ∧
    parse_hhmm "1000" = none ∧ parse_hhmm "10:00:00" = none := by
  refine ⟨?_, by decide, by decide, by decide, by decide⟩
  intro s hh mm hsplit hsh hsm hlth hltm
  simp only [hhmmShape, Bool.and_eq_true] at hsh hsm
  obtain ⟨hlen1, hhd⟩ := hsh
  obtain ⟨hlen2, hmd⟩ := hsm
  have hhne : hh ≠ [] := by
    intro hnil
    rw [hnil] at hlen1
    exact absurd hlen1 (by decide)
  have hmne : mm ≠ [] := by
    intro hnil
    rw [hnil] at hlen2
    exact absurd hlen2 (by decide)
  have hp1 : pyInt hh = some (Int.ofNat (digitsVal hh)) :=
    pyInt_of_digits hh (fun c hc => by
      have := List.all_eq_true.mp hhd c hc
      simpa using this) hhne
  have hp2 : pyInt mm = some (Int.ofNat (digitsVal mm)) :=
    pyInt_of_digits mm (fun c hc => by
      have := List.all_eq_true.mp hmd c hc
      simpa using this) hmne
  rw [parse_hhmm, hsplit]
  show (do
    let h ← pyInt hh
    let m ← pyInt mm
    if 0 ≤ h ∧ h < 24 ∧ 0 ≤ m ∧ m < 60 then some (h.toNat, m.toNat) else none) =
    some (digitsVal hh, digitsVal mm)
  rw [hp1, hp2]
  simp only [Option.bind_eq_bind, Option.some_bind]
  rw [if_pos (by simp only [Int.ofNat_eq_natCast]; omega :
    (0 : Int) ≤ Int.ofNat (digitsVal hh) ∧ Int.ofNat (digitsVal hh) < 24 ∧
      (0 : Int) ≤ Int.ofNat (digitsVal mm) ∧ Int.ofNat (digitsVal mm) < 60)]
  rfl

/-- Witness for C6 at `"9:30"`. -/
theorem C6_parse_hhmm_grammar_witness :
    parse_hhmm "9:30" = some (9, 30) := by
  have h := C6_parse_hhmm_grammar.1 "9:30" ['9'] ['3', '0'] (by decide) (by decide)
    (by decide) (by decide) (by decide)
  simpa using h

/-! ## Lemmas about the validator (claim C5) -/

lemma validateFrom_some_iff (l : List RawEvent) :
    ∀ (i : Nat) (err : VErr),
      validateFrom i l = some err ↔
        ∃ j e, l[j]? = some e ∧ checkEvent (i + j) e = some err ∧
          ∀ k e2, k < j → l[k]? = some e2 → checkEvent (i + k) e2 = none := by
  induction l with
  | nil =>
    intro i err
    simp [validateFrom]
  | cons a t ih =>
    intro i err
    rw [validateFrom]
    cases hca : checkEvent i a with
    | some err0 =>
      constructor
      · intro h
        injection h with h
        subst h
        exact ⟨0, a, by simp, by simpa using hca,
          fun k e2 hk _ => absurd hk (Nat.not_lt_zero k)⟩
      · rintro ⟨j, e, hje, hce, hmin⟩
        cases j with
        | zero =>
          rw [List.getElem?_cons_zero] at hje
          injection hje with hje
          subst hje
          rw [Nat.add_zero, hca] at hce
          exact hce
        | succ j2 =>
          have h0 := hmin 0 a (Nat.succ_pos j2) (by simp)
          rw [Nat.add_zero, hca] at h0
          exact absurd h0 (by simp)
    | none =>
      constructor
      · intro h
        obtain ⟨j, e, hje, hce, hmin⟩ := (ih (i + 1) err).mp h
        refine ⟨j + 1, e, by simpa using hje,
          by rw [show i + (j + 1) = i + 1 + j by omega]; exact hce, ?_⟩
        intro k e2 hk hke
        cases k with
        | zero =>
          rw [List.getElem?_cons_zero] at hke
          injection hke with hke
          subst hke
          simpa using hca
        | succ k2 =>
          rw [List.getElem?_cons_succ] at hke
          have hh := hmin k2 e2 (by omega) hke
          rw [show i + (k2 + 1) = i + 1 + k2 by omega]
          exact hh
      · rintro ⟨j, e, hje, hce, hmin⟩
        cases j with
        | zero =>
          rw [List.getElem?_cons_zero] at hje
          injection hje with hje
          subst hje
          rw [Nat.add_zero, hca] at hce
          exact absurd hce (by simp)
        | succ j2 =>
          apply (ih (i + 1) err).mpr
          refine ⟨j2, e, by simpa using hje,
            by rw [show i + 1 + j2 = i + (j2 + 1) by omega]; exact hce, ?_⟩
          intro k e2 hk hke
          have hh := hmin (k + 1) e2 (by omega) (by simpa using hke)
          rw [show i + 1 + k = i + (k + 1) by omega]
          exact hh

lemma checkEvent_missing_inv (i : Nat) (e : RawEvent) (j : Nat)
    (h : checkEvent i e = some (VErr.missingKeys j)) :
    j = i ∧ hasAllKeys e = false := by
  rw [checkEvent] at h
  split at h
  · rename_i hcond
    simp only [Option.some.injEq, VErr.missingKeys.injEq] at h
    exact ⟨h.symm, by simpa using hcond⟩
  · split at h
    · exact absurd h (by simp)
    · split at h
      · exact absurd h (by simp)
      · split at h
        · exact absurd h (by simp)
        · exact absurd h (by simp)

lemma checkEvent_invalidDay_inv (i : Nat) (e : RawEvent) (j : Nat) (d : String)
    (h : checkEvent i e = some (VErr.invalidDay j d)) :
    j = i ∧ hasAllKeys e = true ∧ dayMap d = none ∧ d ∈ e.days.getD [] := by
  rw [checkEvent] at h
  split at h
  · exact absurd h (by simp)
  · rename_i hcond
    split at h
    · rename_i d0 hfind
      simp only [Option.some.injEq, VErr.invalidDay.injEq] at h
      obtain ⟨hj, hd⟩ := h
      subst hj; subst hd
      have hmem := List.mem_of_find?_eq_some hfind
      have hpred := List.find?_some hfind
      exact ⟨rfl, by simpa using hcond, by simpa using hpred, hmem⟩
    · split at h
      · exact absurd h (by simp)
      · split at h
        · exact absurd h (by simp)
        · exact absurd h (by simp)

lemma checkEvent_badTime_inv (i : Nat) (e : RawEvent) (s : String)
    (h : checkEvent i e = some (VErr.badTime s)) :
    hasAllKeys e = true ∧ (∀ d ∈ e.days.getD [], (dayMap d).isSome) ∧
      parse_hhmm s = none ∧
      (s = e.start.getD "" ∨
        (s = e.endf.getD "" ∧ parse_hhmm (e.start.getD "") ≠ none)) := by
  rw [checkEvent] at h
  split at h
  · exact absurd h (by simp)
  · rename_i hcond
    have hkeys : hasAllKeys e = true := by simpa using hcond
    split at h
    · exact absurd h (by simp)
    · rename_i hfind
      have hdays : ∀ d ∈ e.days.getD [], (dayMap d).isSome := by
        intro d hd
        have := List.find?_eq_none.mp hfind d hd
        rw [Option.isSome_iff_ne_none]
        simpa using this
      split at h
      · rename_i hps
        simp only [Option.some.injEq, VErr.badTime.injEq] at h
        subst h
        exact ⟨hkeys, hdays, hps, Or.inl rfl⟩
      · rename_i hps
        split at h
        · rename_i hpe
          simp only [Option.some.injEq, VErr.badTime.injEq] at h
          subst h
          exact ⟨hkeys, hdays, hpe, Or.inr ⟨rfl, by simp [hps]⟩⟩
        · exact absurd h (by simp)

/-- Two concrete events used in counterexamples and witnesses. -/
def okEv : RawEvent :=
  ⟨some "Good", some ["MO"], some "9:00", some "10:00", none, none⟩

/-- An event whose start time `"9:99"` fails time parsing (minute 99). -/
def badTimeEv : RawEvent :=
  ⟨some "Bad", some ["MO"], some "9:99", some "10:00", none, none⟩

/-- **C5 counterexample**: the error raised for a bad time is the raw
`ValueError` from `parse_hhmm` and carries no event position: the very
same error value results whether the offending event is first or
second, and `checkEvent` ignores its index argument for time errors —
so the time-error message does not identify the offending event's
1-indexed position, unlike the two `Event #i` errors. -/
theorem C5_no_position_in_time_error :
    validateEvents [badTimeEv] = some (VErr.badTime "9:99") ∧
      validateEvents [okEv, badTimeEv] = some (VErr.badTime "9:99") ∧
      checkEvent 1 badTimeEv = checkEvent 2 badTimeEv := by
  refine ⟨by decide, by decide, by decide⟩

/-- **C5** (amended): validation fails with the error of the first
violating event in document order (and within an event the missing-key
check precedes the day-code checks, which precede the start- then
end-time checks, as the inversion conjuncts express); the
missing-field and invalid-day errors carry the offending event's
1-indexed position, but a time error is the raw `ValueError` from
`parse_hhmm`, carrying the offending string only and no event
position. -/
theorem C5_first_error_in_order :
    ∀ (evs : List RawEvent) (err : VErr),
      (validateEvents evs = some err ↔
        ∃ j e, evs[j]? = some e ∧ checkEvent (1 + j) e = some err ∧
          ∀ k e2, k < j → evs[k]? = some e2 → checkEvent (1 + k) e2 = none) ∧
      (∀ i e j, checkEvent i e = some (VErr.missingKeys j) →
        j = i ∧ hasAllKeys e = false) ∧
      (∀ i e j d, checkEvent i e = some (VErr.invalidDay j d) →
        j = i ∧ hasAllKeys e = true ∧ dayMap d = none ∧ d ∈ e.days.getD []) ∧
      (∀ i e s, checkEvent i e = some (VErr.badTime s) →
        hasAllKeys e = true ∧ (∀ d ∈ e.days.getD [], (dayMap d).isSome) ∧
          parse_hhmm s = none ∧
          (s = e.start.getD "" ∨
            (s = e.endf.getD "" ∧ parse_hhmm (e.start.getD "") ≠ none))) :=
  fun evs err =>
    ⟨validateFrom_some_iff evs 1 err,
      fun i e j => checkEvent_missing_inv i e j,
      fun i e j d => checkEvent_invalidDay_inv i e j d,
      fun i e s => checkEvent_badTime_inv i e s⟩

/-- Witness for C5: an invalid day code in the second event is reported
as `Event #2`, the first event having passed. -/
theorem C5_first_error_in_order_witness :
    validateEvents
        [okEv, RawEvent.mk (some "B") (some ["XX"]) (some "9:00") (some "10:00")
          none none] =
      some (VErr.invalidDay 2 "XX") := by
  apply (C5_first_error_in_order
    [okEv, RawEvent.mk (some "B") (some ["XX"]) (some "9:00") (some "10:00")
      none none] (VErr.invalidDay 2 "XX")).1.mpr
  refine ⟨1, RawEvent.mk (some "B") (some ["XX"]) (some "9:00") (some "10:00")
    none none, by decide, by decide, ?_⟩
  intro k e2 hk hke
  interval_cases k
  rw [List.getElem?_cons_zero] at hke
  injection hke with hke
  subst hke
  decide

/-- **C10** (implicit): `print_week_view` does not mutate the event
list — in the embedding the final state of `events` returned by
`print_week_view` is the input list itself (the sorted list is the
fresh list built by the comprehension), so the ICS output built
afterwards is identical whether or not the weekly view was printed. -/
theorem C10_week_view_pure :
    ∀ (events : List RawEvent) (out : List String) (events2 : List RawEvent),
      print_week_view events = some (out, events2) →
      events2 = events ∧
        ∀ (pyHash : UidFields → Int) (term : String) (ts te : Nat),
          build_ics pyHash term ts te events2 = build_ics pyHash term ts te events := by
  intro evs out evs2 h
  rw [print_week_view] at h
  simp only [Option.bind_eq_bind] at h
  obtain ⟨bl, _, hpair⟩ := Option.bind_eq_some.mp h
  injection hpair with hp
  have hsnd := congrArg Prod.snd hp
  simp only at hsnd
  subst hsnd
  exact ⟨rfl, fun _ _ _ _ => rfl⟩

/-- Witness for C10 at a concrete one-event list. -/
theorem C10_week_view_pure_witness :
    ([okEv] : List RawEvent) = [okEv] ∧
      ∀ (pyHash : UidFields → Int) (term : String) (ts te : Nat),
        build_ics pyHash term ts te [okEv] = build_ics pyHash term ts te [okEv] :=
  C10_week_view_pure [okEv]
    ["\nWEEKLY VIEW", "----------------------------------------", "\nMO:",
      "  9:00–10:00  Good", "\nTU:", "  (none)", "\nWE:", "  (none)", "\nTH:",
      "  (none)", "\nFR:", "  (none)", "\nSA:", "  (none)", "\nSU:", "  (none)"]
    [okEv] (by decide)

/-! ## Lemmas about `print_week_view` (claim C4) -/

lemma charListLE_total : ∀ x y : List Char, charListLE x y = true ∨ charListLE y x = true := by
  intro x
  induction x with
  | nil => intro y; exact Or.inl rfl
  | cons a as ih =>
    intro y
    cases y with
    | nil => exact Or.inr rfl
    | cons b bs =>
      rw [charListLE, charListLE]
      rcases Nat.lt_trichotomy a.toNat b.toNat with hlt | heq | hgt
      · left; rw [if_pos hlt]
      · rw [if_neg (by omega), if_neg (by omega), if_neg (by omega), if_neg (by omega)]
        exact ih bs
      · right; rw [if_pos hgt]

lemma charListLE_trans : ∀ x y z : List Char,
    charListLE x y = true → charListLE y z = true → charListLE x z = true := by
  intro x
  induction x with
  | nil => intro y z _ _; rfl
  | cons a as ih =>
    intro y z hxy hyz
    cases y with
    | nil => exact absurd hxy (by rw [charListLE]; simp)
    | cons b bs =>
      cases z with
      | nil => exact absurd hyz (by rw [charListLE]; simp)
      | cons c cs =>
        rw [charListLE] at hxy hyz ⊢
        rcases Nat.lt_trichotomy a.toNat c.toNat with hlt | heq | hgt
        · rw [if_pos hlt]
        · rw [if_neg (by omega), if_neg (by omega)]
          rcases Nat.lt_trichotomy a.toNat b.toNat with h1 | h1 | h1
          · rcases Nat.lt_trichotomy b.toNat c.toNat with h2 | h2 | h2
            · omega
            · omega
            · rw [if_neg (by omega), if_pos (by omega)] at hyz
              exact absurd hyz (by simp)
          · rw [if_neg (by omega), if_neg (by omega)] at hxy
            rw [if_neg (by omega), if_neg (by omega)] at hyz
            exact ih bs cs hxy hyz
          · rw [if_neg (by omega), if_pos (by omega)] at hxy
            exact absurd hxy (by simp)
        · rcases Nat.lt_trichotomy a.toNat b.toNat with h1 | h1 | h1
          · rcases Nat.lt_trichotomy b.toNat c.toNat with h2 | h2 | h2
            · omega
            · omega
            · rw [if_neg (by omega), if_pos (by omega)] at hyz
              exact absurd hyz (by simp)
          · rw [if_neg (by omega), if_pos (by omega)] at hyz
            exact absurd hyz (by simp)
          · rw [if_neg (by omega), if_pos (by omega)] at hxy
            exact absurd hxy (by simp)

instance : IsTotal (String × RawEvent) startLE :=
  ⟨fun a b => (charListLE_total a.1.data b.1.data).imp id id⟩

instance : IsTrans (String × RawEvent) startLE :=
  ⟨fun a b c hab hbc => charListLE_trans a.1.data b.1.data c.1.data hab hbc⟩

/-- Total description of one day block when every event has its four
required fields: the events whose day list contains the code, sorted
stably by their `start` string, rendered; `"  (none)"` when empty. -/
def dayBlockSpec (d : String) (evs : List RawEvent) : List String :=
  let sorted :=
    ((evs.filter fun e => (e.days.getD []).contains d).map fun e =>
      (e.start.getD "", e)).insertionSort startLE
  if sorted.isEmpty then ["  (none)"]
  else sorted.map fun p => renderItem p.1 (p.2.endf.getD "") (p.2.title.getD "")

lemma selectDay_wf (d : String) (evs : List RawEvent)
    (h : ∀ e ∈ evs, e.days.isSome) :
    selectDay d evs = some (evs.filter fun e => (e.days.getD []).contains d) := by
  induction evs with
  | nil => rfl
  | cons e rest ih =>
    obtain ⟨ds, hds⟩ := Option.isSome_iff_exists.mp (h e (List.mem_cons_self e rest))
    rw [selectDay, hds, ih fun x hx => h x (List.mem_cons_of_mem e hx)]
    cases hc : ds.contains d <;>
      simp [List.filter_cons, hds, hc]

lemma keyedItems_wf (l : List RawEvent) (h : ∀ e ∈ l, e.start.isSome) :
    keyedItems l = some (l.map fun e => (e.start.getD "", e)) := by
  induction l with
  | nil => rfl
  | cons e rest ih =>
    obtain ⟨s, hs⟩ := Option.isSome_iff_exists.mp (h e (List.mem_cons_self e rest))
    rw [keyedItems, hs, ih fun x hx => h x (List.mem_cons_of_mem e hx)]
    simp [hs]

lemma renderAll_wf (l : List (String × RawEvent))
    (h : ∀ p ∈ l, p.2.endf.isSome ∧ p.2.title.isSome) :
    (l.mapM fun p => do
      let e ← p.2.endf
      let t ← p.2.title
      pure (renderItem p.1 e t)) =
      some (l.map fun p => renderItem p.1 (p.2.endf.getD "") (p.2.title.getD "")) := by
  induction l with
  | nil => rfl
  | cons p rest ih =>
    obtain ⟨he, ht⟩ := h p (List.mem_cons_self p rest)
    obtain ⟨en, hen⟩ := Option.isSome_iff_exists.mp he
    obtain ⟨ti, hti⟩ := Option.isSome_iff_exists.mp ht
    rw [List.mapM_cons, hen, hti, ih fun x hx => h x (List.mem_cons_of_mem p hx)]
    simp [hen, hti]

lemma hasAllKeys_fields (e : RawEvent) (h : hasAllKeys e = true) :
    e.title.isSome ∧ e.days.isSome ∧ e.start.isSome ∧ e.endf.isSome := by
  simp only [hasAllKeys, Bool.and_eq_true] at h
  exact ⟨h.1.1.1, h.1.1.2, h.1.2, h.2⟩

lemma dayBlock_wf (d : String) (evs : List RawEvent)
    (h : ∀ e ∈ evs, hasAllKeys e = true) :
    dayBlock d evs = some (dayBlockSpec d evs) := by
  have hsel := selectDay_wf d evs fun e he => (hasAllKeys_fields e (h e he)).2.1
  have hmem : ∀ e ∈ evs.filter fun e => (e.days.getD []).contains d, e ∈ evs :=
    fun e he => (List.mem_filter.mp he).1
  have hkey := keyedItems_wf (evs.filter fun e => (e.days.getD []).contains d)
    fun e he => (hasAllKeys_fields e (h e (hmem e he))).2.2.1
  rw [dayBlock, hsel]
  simp only [Option.some_bind, Option.bind_eq_bind]
  rw [hkey]
  simp only [Option.some_bind, Option.bind_eq_bind]
  rw [dayBlockSpec]
  by_cases hemp :
      (((evs.filter fun e => (e.days.getD []).contains d).map fun e =>
        (e.start.getD "", e)).insertionSort startLE).isEmpty
  · rw [if_pos hemp, if_pos hemp]
    rfl
  · rw [if_neg hemp, if_neg hemp]
    apply renderAll_wf
    intro p hp
    have hp2 : p ∈ (evs.filter fun e => (e.days.getD []).contains d).map fun e =>
        (e.start.getD "", e) :=
      (List.perm_insertionSort startLE _).mem_iff.mp hp
    obtain ⟨e, he, rfl⟩ := List.mem_map.mp hp2
    have hf := hasAllKeys_fields e (h e (hmem e he))
    exact ⟨hf.2.2.2, hf.1⟩

lemma print_week_view_wf (evs : List RawEvent)
    (h : ∀ e ∈ evs, hasAllKeys e = true) :
    print_week_view evs =
      some ("\nWEEKLY VIEW" :: String.mk (List.replicate 40 '-') ::
        (WEEK_ORDER.flatMap fun d => ("\n" ++ d ++ ":") :: dayBlockSpec d evs),
        evs) := by
  rw [print_week_view]
  have hone : ∀ d, (do
      let b ← dayBlock d evs
      pure (("\n" ++ d ++ ":") :: b) : Option (List String)) =
      some (("\n" ++ d ++ ":") :: dayBlockSpec d evs) := by
    intro d
    rw [dayBlock_wf d evs h]
    rfl
  show (WEEK_ORDER.mapM fun d => do
      let b ← dayBlock d evs
      pure (("\n" ++ d ++ ":") :: b)).bind _ = _
  rw [show WEEK_ORDER = ["MO", "TU", "WE", "TH", "FR", "SA", "SU"] from rfl]
  rw [List.mapM_cons, hone, List.mapM_cons, hone, List.mapM_cons, hone,
    List.mapM_cons, hone, List.mapM_cons, hone, List.mapM_cons, hone,
    List.mapM_cons, hone, List.mapM_nil]
  simp [WEEK_ORDER]

/-- **C4 counterexample**: the printer sorts by the `start` *string*
(code-point order), not by time of day: with starts `"10:00"` and
`"9:30"` on the same day, the `10:00` line is printed first although
9 h 30 min is the earlier time of day. -/
theorem C4_sort_counterexample :
    dayBlock "MO"
        [RawEvent.mk (some "A") (some ["MO"]) (some "10:00") (some "11:00") none none,
         RawEvent.mk (some "B") (some ["MO"]) (some "9:30") (some "10:15") none none] =
      some ["  10:00–11:00  A", "  9:30–10:15  B"] ∧
    parse_hhmm "9:30" = some (9, 30) ∧ parse_hhmm "10:00" = some (10, 0) ∧
    9 * 60 + 30 < 10 * 60 + 0 := by
  refine ⟨by decide, by decide, by decide, by decide⟩

/-- **C4** (amended): the weekly view processes the seven weekdays in
the fixed order MO..SU; for each weekday it selects exactly the events
whose day list contains that code and prints them sorted stably by the
`start` string in lexicographic (code-point) order — which agrees with
time-of-day order only when hours are zero-padded — rendering
`"  (none)"` for a day with no events; an event listed on two days
appears under both day headers with the same start-end-title line. -/
theorem C4_week_view_layout :
    ∀ evs : List RawEvent, (∀ e ∈ evs, hasAllKeys e = true) →
      print_week_view evs =
        some ("\nWEEKLY VIEW" :: String.mk (List.replicate 40 '-') ::
          (WEEK_ORDER.flatMap fun d => ("\n" ++ d ++ ":") :: dayBlockSpec d evs),
          evs) ∧
      (∀ d : String,
        ((evs.filter fun e => (e.days.getD []).contains d) = [] →
          dayBlockSpec d evs = ["  (none)"]) ∧
        ((evs.filter fun e => (e.days.getD []).contains d) ≠ [] →
          ∃ sorted : List (String × RawEvent),
            sorted.Perm ((evs.filter fun e => (e.days.getD []).contains d).map
              fun e => (e.start.getD "", e)) ∧
            List.Pairwise startLE sorted ∧
            dayBlockSpec d evs =
              sorted.map fun p =>
                renderItem p.1 (p.2.endf.getD "") (p.2.title.getD ""))) ∧
      (∀ e ∈ evs, ∀ d : String, (e.days.getD []).contains d = true →
        renderItem (e.start.getD "") (e.endf.getD "") (e.title.getD "") ∈
          dayBlockSpec d evs) := by
  intro evs h
  refine ⟨print_week_view_wf evs h, ?_, ?_⟩
  · intro d
    constructor
    · intro hnil
      rw [dayBlockSpec]
      simp only [hnil]
      rfl
    · intro hne
      refine ⟨((evs.filter fun e => (e.days.getD []).contains d).map
        fun e => (e.start.getD "", e)).insertionSort startLE,
        List.perm_insertionSort startLE _,
        List.sorted_insertionSort startLE _, ?_⟩
      rw [dayBlockSpec]
      rw [if_neg ?hne2]
      case hne2 =>
        rw [List.isEmpty_iff]
        intro hh
        apply hne
        have hperm := List.perm_insertionSort startLE
          ((evs.filter fun e => (e.days.getD []).contains d).map
            fun e => (e.start.getD "", e))
        rw [hh] at hperm
        exact List.map_eq_nil_iff.mp (List.Perm.nil_eq hperm).symm
  · intro e he d hd
    have hfil : e ∈ evs.filter fun e => (e.days.getD []).contains d :=
      List.mem_filter.mpr ⟨he, hd⟩
    have hkey : (e.start.getD "", e) ∈
        (evs.filter fun e => (e.days.getD []).contains d).map
          fun e => (e.start.getD "", e) :=
      List.mem_map.mpr ⟨e, hfil, rfl⟩
    have hsortmem : (e.start.getD "", e) ∈
        ((evs.filter fun e => (e.days.getD []).contains d).map
          fun e => (e.start.getD "", e)).insertionSort startLE :=
      (List.perm_insertionSort startLE _).mem_iff.mpr hkey
    rw [dayBlockSpec]
    rw [if_neg (by
      rw [List.isEmpty_iff]
      intro hh
      rw [hh] at hsortmem
      exact absurd hsortmem (List.not_mem_nil _))]
    exact List.mem_map.mpr ⟨(e.start.getD "", e), hsortmem, rfl⟩

/-- Witness for C4 at a concrete two-day event. -/
theorem C4_week_view_layout_witness :
    renderItem "9:00" "10:00" "Two" ∈
      dayBlockSpec "WE"
        [RawEvent.mk (some "Two") (some ["MO", "WE"]) (some "9:00") (some "10:00")
          none none] ∧
    renderItem "9:00" "10:00" "Two" ∈
      dayBlockSpec "MO"
        [RawEvent.mk (some "Two") (some ["MO", "WE"]) (some "9:00") (some "10:00")
          none none] := by
  have h := C4_week_view_layout
    [RawEvent.mk (some "Two") (some ["MO", "WE"]) (some "9:00") (some "10:00")
      none none] (by decide)
  have hm := h.2.2 (RawEvent.mk (some "Two") (some ["MO", "WE"]) (some "9:00")
    (some "10:00") none none) (by decide)
  exact ⟨by simpa using hm "WE" (by decide), by simpa using hm "MO" (by decide)⟩

/-! ## The end-to-end example (claims C7 and C2) -/

/-- The event of the spec's end-to-end example. -/
def algEvent : RawEvent :=
  ⟨some "Algorithms", some ["MO", "WE"], some "10:00", some "11:15", none, none⟩

lemma alg_first_matching :
    first_matching_date (ymd2ord 2024 9 2) (ymd2ord 2024 12 13) ["MO", "WE"] =
      some (some (ymd2ord 2024 9 2)) := by
  have e1 : ymd2ord 2024 9 2 = 739131 := by decide
  have e2 : ymd2ord 2024 12 13 = 739233 := by decide
  have hkey : firstMatchingOrd (ymd2ord 2024 12 13) [0, 2] (ymd2ord 2024 9 2) =
      some (some (ymd2ord 2024 9 2)) := by
    rw [e1, e2]
    unfold firstMatchingOrd
    norm_num [weekdayOfOrd]
  rw [first_matching_date,
    show List.mapM dayMap ["MO", "WE"] = some [0, 2] from by decide]
  show firstMatchingOrd (ymd2ord 2024 12 13) [0, 2] (ymd2ord 2024 9 2) = _
  rw [hkey]

lemma alg_buildLines (pyHash : UidFields → Int) :
    buildLines pyHash "Fall 2024" (ymd2ord 2024 9 2) (ymd2ord 2024 12 13) [algEvent] =
      some ["BEGIN:VCALENDAR", "VERSION:2.0",
        "PRODID:-//School Calendar Generator//EN", "CALSCALE:GREGORIAN",
        "X-WR-CALNAME:Fall 2024", "BEGIN:VEVENT",
        "UID:" ++ uidFor pyHash
          ⟨"Algorithms", ["MO", "WE"], "10:00", "11:15", "2024-09-02", "2024-12-13"⟩,
        "SUMMARY:Algorithms", "DTSTART:20240902T100000", "DTEND:20240902T111500",
        "RRULE:FREQ=WEEKLY;BYDAY=MO,WE;UNTIL=20241213T235959",
        "LOCATION:", "DESCRIPTION:", "END:VEVENT", "END:VCALENDAR"] := by
  have h1 : ∀ u : String, eventOne pyHash (ymd2ord 2024 9 2) (ymd2ord 2024 12 13) u
      algEvent =
      some (veventLines pyHash (ymd2ord 2024 9 2) (ymd2ord 2024 12 13)
        (ymd2ord 2024 9 2) u "Algorithms" ["MO", "WE"] (10, 0) (11, 15)
        "10:00" "11:15" "" "") := by
    intro u
    rw [show eventOne pyHash (ymd2ord 2024 9 2) (ymd2ord 2024 12 13) u algEvent =
        (first_matching_date (ymd2ord 2024 9 2) (ymd2ord 2024 12 13)
          ["MO", "WE"]).bind (fun firstO =>
          match firstO with
          | none => pure []
          | some first =>
            pure (veventLines pyHash (ymd2ord 2024 9 2) (ymd2ord 2024 12 13)
              first u "Algorithms" ["MO", "WE"] (10, 0) (11, 15)
              "10:00" "11:15" "" "")) from rfl]
    rw [alg_first_matching]
    rfl
  rw [show buildLines pyHash "Fall 2024" (ymd2ord 2024 9 2) (ymd2ord 2024 12 13)
      [algEvent] =
      (eventBlocks pyHash (ymd2ord 2024 9 2) (ymd2ord 2024 12 13)
        (fmtDT (ymd2ord 2024 12 13) 23 59 59) [algEvent]).bind (fun blocks =>
        pure (headerLines "Fall 2024" ++ blocks ++ ["END:VCALENDAR"])) from rfl]
  rw [eventBlocks, h1]
  rfl

/-- **C7**: on the spec's end-to-end example (term 2024-09-02, a
Monday, to 2024-12-13, one event Algorithms MO/WE 10:00-11:15, for any
per-run hash function) the first occurrence is 2024-09-02 and the
generated document has exactly the header, one VEVENT with
`DTSTART:20240902T100000`, `DTEND:20240902T111500` and
`RRULE:FREQ=WEEKLY;BYDAY=MO,WE;UNTIL=20241213T235959` (day codes in
given order, UNTIL at term end 23:59:59), and the footer. -/
theorem C7_end_to_end_example :
    ∀ pyHash : UidFields → Int,
      first_matching_date (ymd2ord 2024 9 2) (ymd2ord 2024 12 13) ["MO", "WE"] =
        some (some (ymd2ord 2024 9 2)) ∧
      build_ics pyHash "Fall 2024" (ymd2ord 2024 9 2) (ymd2ord 2024 12 13)
          [algEvent] =
        some (pyJoin "\r\n"
          ["BEGIN:VCALENDAR", "VERSION:2.0",
            "PRODID:-//School Calendar Generator//EN", "CALSCALE:GREGORIAN",
            "X-WR-CALNAME:Fall 2024", "BEGIN:VEVENT",
            "UID:" ++ uidFor pyHash
              ⟨"Algorithms", ["MO", "WE"], "10:00", "11:15",
                "2024-09-02", "2024-12-13"⟩,
            "SUMMARY:Algorithms", "DTSTART:20240902T100000",
            "DTEND:20240902T111500",
            "RRULE:FREQ=WEEKLY;BYDAY=MO,WE;UNTIL=20241213T235959",
            "LOCATION:", "DESCRIPTION:", "END:VEVENT", "END:VCALENDAR"] ++
          "\r\n") := by
  intro pyHash
  refine ⟨alg_first_matching, ?_⟩
  rw [build_ics, alg_buildLines]
  rfl

/-- **C2**: the UID comes from `abs(hash(tuple))` where `hash` is
CPython's process-salted hash; with the hash function of one run
mapping the tuple to 0 and that of another run mapping it to 1 —
both legitimate per-run hash values — the two runs produce different
documents (different `UID:` lines) from identical input, so UIDs are
not stable across repeated runs of the program. -/
theorem C2_uid_not_run_stable :
    build_ics (fun _ => 0) "Fall 2024" (ymd2ord 2024 9 2) (ymd2ord 2024 12 13)
        [algEvent] ≠
      build_ics (fun _ => 1) "Fall 2024" (ymd2ord 2024 9 2) (ymd2ord 2024 12 13)
        [algEvent] := by
  rw [build_ics, alg_buildLines, build_ics, alg_buildLines]
  decide

/-! ## Well-formedness of the document (claim C8) -/

/-- A content line: contains no raw CR or LF (so the CRLF joins below
really delimit lines). -/
def noCRLF (s : String) : Prop := ∀ c ∈ s.data, c ≠ '\r' ∧ c ≠ '\n'

/-- Each line followed by CRLF, concatenated. -/
def unlinesCRLF : List String → String
  | [] => ""
  | x :: r => x ++ "\r\n" ++ unlinesCRLF r

lemma pyJoin_crlf (l : List String) (h : l ≠ []) :
    pyJoin "\r\n" l ++ "\r\n" = unlinesCRLF l := by
  induction l with
  | nil => exact absurd rfl h
  | cons x r ih =>
    cases r with
    | nil => show x ++ "\r\n" = x ++ "\r\n" ++ ""; rw [String.append_empty]
    | cons y t =>
      show (x ++ "\r\n" ++ pyJoin "\r\n" (y :: t)) ++ "\r\n" = _
      rw [String.append_assoc (x ++ "\r\n"), ih (by simp)]
      rfl

lemma noCRLF_append (a b : String) (ha : noCRLF a) (hb : noCRLF b) :
    noCRLF (a ++ b) := by
  intro c hc
  rw [String.data_append] at hc
  rcases List.mem_append.mp hc with h | h
  · exact ha c h
  · exact hb c h

lemma noCRLF_escape (s : String) : noCRLF (ics_escape s) :=
  fun c hc => mem_escapeChars_ne_crlf c s.data hc

lemma digitChar_ne_crlf (d : Nat) (h : d < 10) :
    Char.ofNat (48 + d) ≠ '\r' ∧ Char.ofNat (48 + d) ≠ '\n' := by
  interval_cases d <;> exact ⟨by decide, by decide⟩

lemma natDecAux_ne_crlf : ∀ (fuel n : Nat), ∀ c ∈ natDecAux fuel n,
    c ≠ '\r' ∧ c ≠ '\n' := by
  intro fuel
  induction fuel with
  | zero =>
    intro n c hc
    rw [natDecAux] at hc
    rcases List.mem_singleton.mp hc with rfl
    exact digitChar_ne_crlf (n % 10) (Nat.mod_lt n (by omega))
  | succ f ih =>
    intro n c hc
    rw [natDecAux] at hc
    by_cases hn : n < 10
    · rw [if_pos hn] at hc
      rcases List.mem_singleton.mp hc with rfl
      exact digitChar_ne_crlf n hn
    · rw [if_neg hn] at hc
      rcases List.mem_append.mp hc with h | h
      · exact ih (n / 10) c h
      · rcases List.mem_singleton.mp h with rfl
        exact digitChar_ne_crlf (n % 10) (Nat.mod_lt n (by omega))

lemma pad2_ne_crlf (n : Nat) : ∀ c ∈ pad2 n, c ≠ '\r' ∧ c ≠ '\n' := by
  intro c hc
  rw [pad2] at hc
  split at hc
  · rcases List.mem_cons.mp hc with rfl | h
    · exact ⟨by decide, by decide⟩
    · exact natDecAux_ne_crlf n n c h
  · exact natDecAux_ne_crlf n n c hc

lemma pad4_ne_crlf (n : Nat) : ∀ c ∈ pad4 n, c ≠ '\r' ∧ c ≠ '\n' := by
  intro c hc
  rw [pad4] at hc
  rcases List.mem_append.mp hc with h | h
  · rcases List.eq_of_mem_replicate h with rfl
    exact ⟨by decide, by decide⟩
  · exact natDecAux_ne_crlf n n c h

lemma noCRLF_fmtDT (n a b c : Nat) : noCRLF (fmtDT n a b c) := by
  intro ch hch
  rw [fmtDT] at hch
  rcases List.mem_append.mp (by
      simpa using hch :
      ch ∈ pad4 (ord2ymd n).1 ++ pad2 (ord2ymd n).2.1 ++ pad2 (ord2ymd n).2.2 ++
        'T' :: (pad2 a ++ pad2 b ++ pad2 c)) with h | h
  · rcases List.mem_append.mp h with h2 | h2
    · rcases List.mem_append.mp h2 with h3 | h3
      · exact pad4_ne_crlf _ ch h3
      · exact pad2_ne_crlf _ ch h3
    · exact pad2_ne_crlf _ ch h2
  · rcases List.mem_cons.mp h with rfl | h2
    · exact ⟨by decide, by decide⟩
    · rcases List.mem_append.mp h2 with h3 | h3
      · rcases List.mem_append.mp h3 with h4 | h4
        · exact pad2_ne_crlf _ ch h4
        · exact pad2_ne_crlf _ ch h4
      · exact pad2_ne_crlf _ ch h3

lemma noCRLF_uidFor (pyHash : UidFields → Int) (f : UidFields) :
    noCRLF (uidFor pyHash f) := by
  apply noCRLF_append
  · exact fun c hc => natDecAux_ne_crlf _ _ c hc
  · intro c hc
    rcases (by decide :
      ∀ x ∈ "@school-calendar".data, x ≠ '\r' ∧ x ≠ '\n') c hc with h
    exact h

lemma dayMap_isSome_cases (d : String) (h : (dayMap d).isSome) :
    d = "MO" ∨ d = "TU" ∨ d = "WE" ∨ d = "TH" ∨ d = "FR" ∨ d = "SA" ∨ d = "SU" := by
  rw [dayMap] at h
  split_ifs at h with h1 h2 h3 h4 h5 h6 h7
  · exact Or.inl h1
  · exact Or.inr (Or.inl h2)
  · exact Or.inr (Or.inr (Or.inl h3))
  · exact Or.inr (Or.inr (Or.inr (Or.inl h4)))
  · exact Or.inr (Or.inr (Or.inr (Or.inr (Or.inl h5))))
  · exact Or.inr (Or.inr (Or.inr (Or.inr (Or.inr (Or.inl h6)))))
  · exact Or.inr (Or.inr (Or.inr (Or.inr (Or.inr (Or.inr h7)))))
  · exact absurd h (by decide)

lemma noCRLF_code (d : String) (h : (dayMap d).isSome) : noCRLF d := by
  rcases dayMap_isSome_cases d h with rfl | rfl | rfl | rfl | rfl | rfl | rfl <;>
    exact fun c hc => (by decide : ∀ x ∈ _, x ≠ '\r' ∧ x ≠ '\n') c hc

lemma noCRLF_pyJoin_days (days : List String)
    (h : ∀ d ∈ days, (dayMap d).isSome) : noCRLF (pyJoin "," days) := by
  induction days with
  | nil =>
    intro c hc
    exact absurd hc (List.not_mem_nil c)
  | cons d rest ih =>
    cases rest with
    | nil =>
      show noCRLF d
      exact noCRLF_code d (h d (List.mem_cons_self d []))
    | cons d2 t =>
      show noCRLF (d ++ "," ++ pyJoin "," (d2 :: t))
      apply noCRLF_append
      · apply noCRLF_append
        · exact noCRLF_code d (h d (List.mem_cons_self d (d2 :: t)))
        · exact fun c hc => (by decide : ∀ x ∈ ",".data, x ≠ '\r' ∧ x ≠ '\n') c hc
      · exact ih fun x hx => h x (List.mem_cons_of_mem d hx)

lemma noCRLF_lit (s : String)
    (h : (s.data.all fun c => ¬(c = '\r' ∨ c = '\n')) = true) : noCRLF s := by
  intro c hc
  have := List.all_eq_true.mp h c hc
  simp at this
  exact ⟨this.1, this.2⟩

lemma checkEvent_none_inv (i : Nat) (e : RawEvent) (h : checkEvent i e = none) :
    hasAllKeys e = true ∧ (∀ d ∈ e.days.getD [], (dayMap d).isSome) ∧
      (∃ hm, parse_hhmm (e.start.getD "") = some hm) ∧
      (∃ hm, parse_hhmm (e.endf.getD "") = some hm) := by
  rw [checkEvent] at h
  split at h
  · exact absurd h (by simp)
  · rename_i hcond
    split at h
    · exact absurd h (by simp)
    · rename_i hfind
      refine ⟨by simpa using hcond, ?_, ?_, ?_⟩
      · intro d hd
        have := List.find?_eq_none.mp hfind d hd
        rw [Option.isSome_iff_ne_none]
        simpa using this
      · split at h
        · exact absurd h (by simp)
        · rename_i hm hps
          exact ⟨hm, hps⟩
      · split at h
        · exact absurd h (by simp)
        · rename_i hm hps
          split at h
          · exact absurd h (by simp)
          · rename_i hm2 hpe
            exact ⟨hm2, hpe⟩

lemma validateFrom_none_forall :
    ∀ (l : List RawEvent) (i : Nat), validateFrom i l = none →
      ∀ e ∈ l, ∃ k, checkEvent k e = none := by
  intro l
  induction l with
  | nil => intro i _ e he; exact absurd he (List.not_mem_nil e)
  | cons a t ih =>
    intro i h e he
    rw [validateFrom] at h
    cases hca : checkEvent i a with
    | some err => rw [hca] at h; exact absurd h (by simp)
    | none =>
      rw [hca] at h
      rcases List.mem_cons.mp he with rfl | hmem
      · exact ⟨i, hca⟩
      · exact ih (i + 1) h e hmem

/-- The lines an event contributes are defined and CR/LF-free, for a
valid event and a CR/LF-free UNTIL string. -/
lemma eventOne_valid (pyHash : UidFields → Int) (ts te : Nat) (u : String)
    (e : RawEvent) (hte : te < DATE_MAX_ORD) (hu : noCRLF u)
    (hk : hasAllKeys e = true) (hd : ∀ d ∈ e.days.getD [], (dayMap d).isSome)
    (hs : ∃ hm, parse_hhmm (e.start.getD "") = some hm)
    (he : ∃ hm, parse_hhmm (e.endf.getD "") = some hm) :
    ∃ b, eventOne pyHash ts te u e = some b ∧ ∀ l ∈ b, noCRLF l := by
  obtain ⟨hti, hds, hss, hes⟩ := hasAllKeys_fields e hk
  obtain ⟨ti, hti'⟩ := Option.isSome_iff_exists.mp hti
  obtain ⟨ds, hds'⟩ := Option.isSome_iff_exists.mp hds
  obtain ⟨ss, hss'⟩ := Option.isSome_iff_exists.mp hss
  obtain ⟨es, hes'⟩ := Option.isSome_iff_exists.mp hes
  obtain ⟨shm, hsp⟩ := hs
  obtain ⟨ehm, hep⟩ := he
  rw [hss'] at hsp
  rw [hes'] at hep
  simp only [Option.getD_some] at hsp hep
  have hdss : ∀ d ∈ ds, (dayMap d).isSome := by
    intro d hdm
    apply hd
    rw [hds']
    simpa using hdm
  obtain ⟨w, hw⟩ : ∃ w, List.mapM dayMap ds = some w :=
    ⟨ds.filterMap dayMap, mapM_dayMap_of_valid ds hdss⟩
  have hfm : first_matching_date ts te ds = firstMatchingOrd te w ts := by
    rw [first_matching_date, hw]
    rfl
  obtain ⟨r, hr⟩ := fmo_isSome_of_lt te w hte ts
  rw [eventOne, hti', hds', hss', hes']
  simp only [Option.some_bind, Option.bind_eq_bind]
  rw [hsp]
  simp only [Option.some_bind]
  rw [hep]
  simp only [Option.some_bind]
  rw [hfm, hr]
  simp only [Option.some_bind]
  cases r with
  | none => exact ⟨[], rfl, fun l hl => absurd hl (List.not_mem_nil l)⟩
  | some first =>
    refine ⟨_, rfl, ?_⟩
    intro l hl
    rw [veventLines] at hl
    simp only [List.mem_cons, List.not_mem_nil, or_false] at hl
    rcases hl with rfl | rfl | rfl | rfl | rfl | rfl | rfl | rfl | rfl
    · exact noCRLF_lit _ (by decide)
    · exact noCRLF_append _ _ (noCRLF_lit _ (by decide)) (noCRLF_uidFor pyHash _)
    · exact noCRLF_append _ _ (noCRLF_lit _ (by decide)) (noCRLF_escape ti)
    · exact noCRLF_append _ _ (noCRLF_lit _ (by decide)) (noCRLF_fmtDT _ _ _ _)
    · exact noCRLF_append _ _ (noCRLF_lit _ (by decide)) (noCRLF_fmtDT _ _ _ _)
    · refine noCRLF_append _ _ (noCRLF_append _ _
        (noCRLF_append _ _ (noCRLF_lit _ (by decide))
          (noCRLF_pyJoin_days ds hdss)) (noCRLF_lit _ (by decide))) hu
    · exact noCRLF_append _ _ (noCRLF_lit _ (by decide))
        (noCRLF_escape (e.location.getD ""))
    · exact noCRLF_append _ _ (noCRLF_lit _ (by decide))
        (noCRLF_escape (e.notes.getD ""))
    · exact noCRLF_lit _ (by decide)

lemma eventBlocks_valid (pyHash : UidFields → Int) (ts te : Nat) (u : String)
    (hte : te < DATE_MAX_ORD) (hu : noCRLF u) :
    ∀ evs : List RawEvent,
      (∀ e ∈ evs, ∃ k, checkEvent k e = none) →
      ∃ b, eventBlocks pyHash ts te u evs = some b ∧ ∀ l ∈ b, noCRLF l := by
  intro evs
  induction evs with
  | nil => exact fun _ => ⟨[], rfl, fun l hl => absurd hl (List.not_mem_nil l)⟩
  | cons e rest ih =>
    intro h
    obtain ⟨k, hke⟩ := h e (List.mem_cons_self e rest)
    obtain ⟨hk1, hk2, hk3, hk4⟩ := checkEvent_none_inv k e hke
    obtain ⟨b1, hb1, hb1n⟩ := eventOne_valid pyHash ts te u e hte hu hk1 hk2 hk3 hk4
    obtain ⟨b2, hb2, hb2n⟩ := ih fun x hx => h x (List.mem_cons_of_mem e hx)
    refine ⟨b1 ++ b2, ?_, ?_⟩
    · rw [eventBlocks, hb1]
      simp only [Option.some_bind, Option.bind_eq_bind]
      rw [hb2]
      rfl
    · intro l hl
      rcases List.mem_append.mp hl with hh | hh
      · exact hb1n l hh
      · exact hb2n l hh

/-- **C8** (amended): for every validated event list, provided the term
window ends strictly before `date.max` (9999-12-31), the builder
succeeds and the document is the header lines, the contributed VEVENT
lines, and the `END:VCALENDAR` footer, each line free of raw CR/LF and
each line — the final one included — terminated by CRLF; and,
unconditionally, an event whose scan completed with no first occurrence
contributes no VEVENT block: deleting it from the list leaves the
document unchanged.  (When the window ends on `date.max` and a
validated event has no occurrence, `date.fromordinal` raises
`ValueError` and no document is produced; see the counterexample.) -/
theorem C8_wellformed_amended :
    ∀ (pyHash : UidFields → Int) (term : String) (ts te : Nat)
      (evs : List RawEvent),
      validateEvents evs = none →
      (te < DATE_MAX_ORD →
        ∃ body, buildLines pyHash term ts te evs =
          some (headerLines term ++ body ++ ["END:VCALENDAR"]) ∧
        build_ics pyHash term ts te evs =
          some (unlinesCRLF (headerLines term ++ body ++ ["END:VCALENDAR"])) ∧
        ∀ l ∈ headerLines term ++ body ++ ["END:VCALENDAR"], noCRLF l) ∧
      (∀ pre post ev, evs = pre ++ ev :: post →
        first_matching_date ts te (ev.days.getD []) = some none →
        buildLines pyHash term ts te evs =
          buildLines pyHash term ts te (pre ++ post)) := by
  intro pyHash term ts te evs hva
  have hval := validateFrom_none_forall evs 1 hva
  have hu : noCRLF (fmtDT te 23 59 59) := noCRLF_fmtDT te 23 59 59
  constructor
  · intro hte
    obtain ⟨body, hb, hbn⟩ := eventBlocks_valid pyHash ts te _ hte hu evs hval
    refine ⟨body, ?_, ?_, ?_⟩
    · rw [buildLines, hb]
      rfl
    · rw [build_ics, buildLines, hb]
      show some (pyJoin "\r\n" (headerLines term ++ body ++ ["END:VCALENDAR"]) ++
        "\r\n") = _
      rw [pyJoin_crlf _ (by simp [headerLines])]
    · intro l hl
      rcases List.mem_append.mp hl with hh | hh
      · rcases List.mem_append.mp hh with h3 | h3
        · rw [headerLines] at h3
          simp only [List.mem_cons, List.not_mem_nil, or_false] at h3
          rcases h3 with rfl | rfl | rfl | rfl | rfl
          · exact noCRLF_lit _ (by decide)
          · exact noCRLF_lit _ (by decide)
          · exact noCRLF_lit _ (by decide)
          · exact noCRLF_lit _ (by decide)
          · exact noCRLF_append _ _ (noCRLF_lit _ (by decide)) (noCRLF_escape term)
        · exact hbn l h3
      · rcases List.mem_singleton.mp hh with rfl
        exact noCRLF_lit _ (by decide)
  · intro pre post ev hsplit hnone
    subst hsplit
    have hev := hval ev (by simp)
    obtain ⟨k, hke⟩ := hev
    obtain ⟨hk1, hk2, hk3, hk4⟩ := checkEvent_none_inv k ev hke
    obtain ⟨hti, hds, hss, hes⟩ := hasAllKeys_fields ev hk1
    obtain ⟨ti, hti'⟩ := Option.isSome_iff_exists.mp hti
    obtain ⟨ds, hds'⟩ := Option.isSome_iff_exists.mp hds
    obtain ⟨ss, hss'⟩ := Option.isSome_iff_exists.mp hss
    obtain ⟨es, hes'⟩ := Option.isSome_iff_exists.mp hes
    obtain ⟨shm, hsp⟩ := hk3
    obtain ⟨ehm, hep⟩ := hk4
    rw [hss', Option.getD_some] at hsp
    rw [hes', Option.getD_some] at hep
    rw [hds', Option.getD_some] at hnone
    have hone : ∀ u, eventOne pyHash ts te u ev = some [] := by
      intro u
      rw [eventOne, hti', hds', hss', hes']
      simp [hsp, hep, hnone]
    have hcons : ∀ u, eventBlocks pyHash ts te u (ev :: post) =
        eventBlocks pyHash ts te u post := by
      intro u
      rw [eventBlocks, hone]
      cases eventBlocks pyHash ts te u post <;> rfl
    simp only [buildLines, eventBlocks_append, hcons]

/-- The spec's skipped-event example: a Sunday-only event over the
one-Monday window 2024-09-02..2024-09-02. -/
def suEv : RawEvent :=
  ⟨some "S", some ["SU"], some "9:00", some "10:00", none, none⟩

/-- Witness for C8: the Sunday-only event in a single-Monday window
(far below `date.max`) is validated, contributes no VEVENT (removing it
changes nothing), and the document still has the header/footer shape. -/
theorem C8_wellformed_amended_witness :
    validateEvents [suEv] = none ∧
      buildLines (fun _ => 0) "Fall" (ymd2ord 2024 9 2) (ymd2ord 2024 9 2) [suEv] =
        buildLines (fun _ => 0) "Fall" (ymd2ord 2024 9 2) (ymd2ord 2024 9 2) [] ∧
      ∃ body,
        buildLines (fun _ => 0) "Fall" (ymd2ord 2024 9 2) (ymd2ord 2024 9 2) [suEv] =
          some (headerLines "Fall" ++ body ++ ["END:VCALENDAR"]) := by
  have hfm : first_matching_date (ymd2ord 2024 9 2) (ymd2ord 2024 9 2) ["SU"] =
      some none := by
    rw [first_matching_date, show List.mapM dayMap ["SU"] = some [6] from by decide]
    show firstMatchingOrd (ymd2ord 2024 9 2) [6] (ymd2ord 2024 9 2) = some none
    rw [show ymd2ord 2024 9 2 = 739131 from by decide]
    simp [firstMatchingOrd, weekdayOfOrd, DATE_MAX_ORD]
  have h := C8_wellformed_amended (fun _ => 0) "Fall" (ymd2ord 2024 9 2)
    (ymd2ord 2024 9 2) [suEv] (by decide)
  refine ⟨by decide, ?_, ?_⟩
  · have h2 := h.2 [] [] suEv rfl (by simpa using hfm)
    simpa using h2
  · obtain ⟨body, hb, -, -⟩ := h.1 (by decide)
    exact ⟨body, hb⟩

/-- **C8 counterexample** (boundary): with the validated Monday event
over the one-day window 9999-12-31..9999-12-31 (no occurrence, since
9999-12-31 is a Friday), `build_ics` does not skip the event and
produce an event-less calendar: the scan raises `ValueError` from
`date.fromordinal` and no document is produced at all. -/
theorem C8_boundary_counterexample :
    validateEvents [okEv] = none ∧
      build_ics (fun _ => (0 : Int)) "T" (ymd2ord 9999 12 31) (ymd2ord 9999 12 31)
        [okEv] = none := by
  refine ⟨by decide, ?_⟩
  have hone : ∀ u, eventOne (fun _ => (0 : Int)) (ymd2ord 9999 12 31)
      (ymd2ord 9999 12 31) u okEv = none := by
    intro u
    rw [eventOne]
    simp [okEv, show parse_hhmm "9:00" = some (9, 0) from by decide,
      show parse_hhmm "10:00" = some (10, 0) from by decide, fmd_max_mo_error]
  simp only [build_ics, buildLines, eventBlocks, hone]
  rfl

end SchoolCal
